import Mathlib

/-!
# Verification of the MIDI-Pi playback core

A shallow embedding of the MIDI file parser (`src/MidiFileParser.cpp`), the
player (`src/MidiPlayer.cpp`) and the file-length cache (`src/main.cpp`)
of the MIDI-Pi repository, together with theorems settling the claims about
their specification.

Machine integers are modelled as `Nat` with explicit `% 2^w` at the points
where the C++ code can overflow.  A `uint8_t` byte read from a buffer is
modelled as `b % 256`.  File and track contents are `List Nat` byte lists.
-/

set_option maxHeartbeats 1000000

/-- Modulus of `uint32_t` arithmetic. -/
def U32 : Nat := 4294967296

/-- Modulus of `uint16_t` arithmetic. -/
def U16 : Nat := 65536

/-- `struct MidiEvent` (MidiFileParser.h).  `sysexData` (a heap pointer in the
source) is modelled as the list of bytes it points to; the null pointer is the
empty list. -/
structure MidiEvent where
  deltaTime : Nat
  absoluteTime : Nat
  type : Nat
  channel : Nat
  data1 : Nat
  data2 : Nat
  sysexData : List Nat
  sysexLength : Nat
  isMetaEvent : Bool
  trackNumber : Nat
  deriving Repr, DecidableEq

/-- The `MidiEvent()` constructor: all fields zero / null / false. -/
def MidiEvent.default : MidiEvent :=
  ⟨0, 0, 0, 0, 0, 0, [], 0, false, 0⟩

instance : Inhabited MidiEvent := ⟨MidiEvent.default⟩

/-- `struct MidiFileInfo` (MidiFileParser.h).  `trackName` is the byte list
stored in the fixed 64-byte array. -/
structure MidiFileInfo where
  format : Nat
  numTracks : Nat
  ticksPerQuarter : Nat
  tempo : Nat
  numerator : Nat
  denominator : Nat
  trackName : List Nat
  deriving Repr, DecidableEq

/-- `struct TrackState` (MidiFileParser.h).  `data` is the byte slice of the
file that backs this track (the bytes reachable through `fillTrackBuffer` /
`readTrackByte`, which never read past the declared track end nor past the end
of the file); `filePosition` is the logical position relative to the track
start; `trackEndPos` is the declared `MTrk` chunk length.  The 512-byte window
(`buffer`, `bufferPos`, `bufferSize`, `bufferFilePos`) is an I/O optimisation
that is observationally equivalent to reading `data` at `filePosition`, so it
is not represented. -/
structure TrackState where
  data : List Nat
  trackEndPos : Nat
  filePosition : Nat
  currentTick : Nat
  runningStatus : Nat
  endOfTrack : Bool
  nextEvent : MidiEvent
  eventReady : Bool
  deriving Repr, DecidableEq

instance : Inhabited TrackState :=
  ⟨⟨[], 0, 0, 0, 0, false, MidiEvent.default, false⟩⟩

/-- `MidiFileParser::readTrackByte`: returns the byte at the current position
and advances, or returns 0 without advancing once the data is exhausted
(`fillTrackBuffer` fails and the function returns 0). -/
def readTrackByte (t : TrackState) : Nat × TrackState :=
  if t.filePosition < t.data.length then
    ((t.data.getD t.filePosition 0) % 256, { t with filePosition := t.filePosition + 1 })
  else
    (0, t)

/-- `filePosition--` on the `uint32_t` field (wraps at zero). -/
def decPos (p : Nat) : Nat :=
  if p = 0 then U32 - 1 else p - 1

/-- The loop body of `readTrackVariableLength`, structurally recursive on a
fuel argument so that the kernel can evaluate it.  One unit of fuel per
iteration; the wrapper below supplies `data.length + 1 - pos` fuel, which
`readVLQFuel_rec` proves sufficient (each iteration consumes a byte, and a
read past the end of the data yields byte 0, which ends the loop). -/
def readVLQFuel (data : List Nat) : Nat → Nat → Nat → Nat × Nat
  | 0, pos, acc => ((acc * 128) % U32, pos)
  | fuel + 1, pos, acc =>
    if pos < data.length then
      let b := (data.getD pos 0) % 256
      let acc' := (acc * 128 + b % 128) % U32
      if b < 128 then (acc', pos + 1) else readVLQFuel data fuel (pos + 1) acc'
    else ((acc * 128) % U32, pos)

/-- Value and end position of one VLQ read starting at `pos`. -/
def readVLQp (data : List Nat) (pos acc : Nat) : Nat × Nat :=
  readVLQFuel data (data.length + 1 - pos) pos acc

/-- `readVLQFuel` is fuel-insensitive once the fuel covers the remaining
bytes. -/
theorem readVLQFuel_fuelInv (data : List Nat) (f1 f2 pos acc : Nat)
    (h1 : data.length + 1 - pos ≤ f1) (h2 : data.length + 1 - pos ≤ f2) :
    readVLQFuel data f1 pos acc = readVLQFuel data f2 pos acc := by
  induction f1 generalizing f2 pos acc with
  | zero =>
    have hp : ¬ pos < data.length := by omega
    match f2 with
    | 0 => rfl
    | f2 + 1 => rw [readVLQFuel, readVLQFuel, if_neg hp]
  | succ f1 ih =>
    match f2 with
    | 0 =>
      have hp : ¬ pos < data.length := by omega
      rw [readVLQFuel, readVLQFuel, if_neg hp]
    | f2 + 1 =>
      rw [readVLQFuel, readVLQFuel]
      by_cases hp : pos < data.length
      · rw [if_pos hp, if_pos hp]
        by_cases hb : data.getD pos 0 % 256 < 128
        · rw [if_pos hb, if_pos hb]
        · rw [if_neg hb, if_neg hb]
          exact ih f2 (pos + 1) _ (by omega) (by omega)
      · rw [if_neg hp, if_neg hp]

/-- The recurrence satisfied by `readVLQp` — the shape of the source's
do-while loop. -/
theorem readVLQp_rec (data : List Nat) (pos acc : Nat) :
    readVLQp data pos acc =
      if pos < data.length then
        if (data.getD pos 0) % 256 < 128 then
          ((acc * 128 + (data.getD pos 0) % 256 % 128) % U32, pos + 1)
        else readVLQp data (pos + 1) ((acc * 128 + (data.getD pos 0) % 256 % 128) % U32)
      else ((acc * 128) % U32, pos) := by
  unfold readVLQp
  by_cases hp : pos < data.length
  · have heq : data.length + 1 - pos = (data.length + 1 - (pos + 1)) + 1 := by omega
    rw [heq, readVLQFuel, if_pos hp]
  · rw [if_neg hp]
    match hf : data.length + 1 - pos with
    | 0 => rw [readVLQFuel]
    | f + 1 => rw [readVLQFuel, if_neg hp]

/-- `MidiFileParser::readTrackVariableLength`: the do-while loop accumulating
`value = (value << 7) | (byte & 0x7F)` in `uint32_t` while the continuation
bit is set.  A read past the end of the data yields byte 0, which ends the
loop.  Defined through the positional `readVLQp`; `readTrackVariableLength_eq`
below restates it in the source's recursive shape. -/
def readTrackVariableLength (t : TrackState) (acc : Nat) : Nat × TrackState :=
  ((readVLQp t.data t.filePosition acc).1,
   { t with filePosition := (readVLQp t.data t.filePosition acc).2 })

/-- `n` consecutive `readTrackByte` calls discarding the bytes (the meta /
sysex skip loops). -/
def skipTrackBytes (t : TrackState) : Nat → TrackState
  | 0 => t
  | n + 1 => skipTrackBytes (readTrackByte t).2 n

/-- `n` consecutive `readTrackByte` calls collecting the bytes (the sysex /
track-name read loops). -/
def readTrackBytesList (t : TrackState) : Nat → List Nat × TrackState
  | 0 => ([], t)
  | n + 1 =>
    let (b, t') := readTrackByte t
    let (bs, t'') := readTrackBytesList t' n
    (b :: bs, t'')

/-- Result of `MidiFileParser::readTrackEvent` — the updated `fileInfo`, the
updated track state, the in-out `MidiEvent&` argument after the call, and the
`bool` return value. -/
structure RTERes where
  fileInfo : MidiFileInfo
  track : TrackState
  event : MidiEvent
  ok : Bool
  deriving Repr, DecidableEq

/-- The `MIDI_META_EVENT` (0xFF) branch of `MidiFileParser::readTrackEvent`:
reads the meta type and the VLQ length, then dispatches on the meta type.
`1 << byte` stored into the `uint8_t` denominator is modelled as
`2 ^ b % 256`. -/
def metaDispatch (fi : MidiFileInfo) (t : TrackState) (ev : MidiEvent) : RTERes :=
  let (metaType, t) := readTrackByte t
  let ev := { ev with isMetaEvent := true, data1 := metaType }
  let (length, t) := readTrackVariableLength t 0
  if metaType = 0x51 then  -- META_TEMPO
    if length = 3 then
      let (b1, t) := readTrackByte t
      let (b2, t) := readTrackByte t
      let (b3, t) := readTrackByte t
      let tempo := b1 * 65536 + b2 * 256 + b3
      let fi := if 100000 ≤ tempo ∧ tempo ≤ 10000000 then { fi with tempo := tempo } else fi
      ⟨fi, { t with runningStatus := 0 }, ev, true⟩
    else
      ⟨fi, { skipTrackBytes t length with runningStatus := 0 }, ev, true⟩
  else if metaType = 0x58 then  -- META_TIME_SIGNATURE
    if length = 4 then
      let (b1, t) := readTrackByte t
      let (b2, t) := readTrackByte t
      let (_, t) := readTrackByte t
      let (_, t) := readTrackByte t
      ⟨{ fi with numerator := b1, denominator := 2 ^ b2 % 256 },
       { t with runningStatus := 0 }, ev, true⟩
    else
      -- no else branch in the source: the payload is not consumed
      ⟨fi, { t with runningStatus := 0 }, ev, true⟩
  else if metaType = 0x03 then  -- META_TRACK_NAME
    if length < 64 then
      let (name, t) := readTrackBytesList t length
      ⟨{ fi with trackName := name }, { t with runningStatus := 0 }, ev, true⟩
    else
      ⟨fi, { skipTrackBytes t length with runningStatus := 0 }, ev, true⟩
  else if metaType = 0x2F then  -- META_END_OF_TRACK
    -- early `return false`: `runningStatus = 0` after the switch is skipped
    ⟨fi, { t with endOfTrack := true }, ev, false⟩
  else
    ⟨fi, { skipTrackBytes t length with runningStatus := 0 }, ev, true⟩

/-- The regular channel-voice branch of `MidiFileParser::readTrackEvent`:
two data bytes for NoteOff/NoteOn/PolyAftertouch/ControlChange/PitchBend, one
for ProgramChange/ChannelAftertouch, `return false` otherwise. -/
def voiceDispatch (fi : MidiFileInfo) (t : TrackState) (ev : MidiEvent) : RTERes :=
  if ev.type = 0x80 ∨ ev.type = 0x90 ∨ ev.type = 0xA0 ∨ ev.type = 0xB0 ∨ ev.type = 0xE0 then
    let (d1, t) := readTrackByte t
    let (d2, t) := readTrackByte t
    ⟨fi, t, { ev with data1 := d1, data2 := d2 }, true⟩
  else if ev.type = 0xC0 ∨ ev.type = 0xD0 then
    let (d1, t) := readTrackByte t
    ⟨fi, t, { ev with data1 := d1, data2 := 0 }, true⟩
  else
    ⟨fi, t, ev, false⟩

/-- `MidiFileParser::readTrackEvent` for one track.  `prev` is the `MidiEvent&`
in-out argument (the caller passes `tracks[i].nextEvent`); fields the source
does not assign keep their previous values.  The `trackNum >= numTracks` guard
of the source is the caller-side bounds check and lives in `readNextEvent`
below. -/
def readTrackEvent (fi : MidiFileInfo) (t : TrackState) (trackNum : Nat)
    (prev : MidiEvent) : RTERes :=
  if t.endOfTrack then ⟨fi, t, prev, false⟩
  else if t.trackEndPos ≤ t.filePosition then
    ⟨fi, { t with endOfTrack := true }, prev, false⟩
  else
    let (delta, t) := readTrackVariableLength t 0
    let t := { t with currentTick := (t.currentTick + delta) % U32 }
    let ev := { prev with deltaTime := delta, absoluteTime := t.currentTick,
                          trackNumber := trackNum % 256 }
    let (sb, t) := readTrackByte t
    -- running status: a data byte is put back and the previous status reused
    let (statusByte, t) :=
      if sb < 128 then (t.runningStatus, { t with filePosition := decPos t.filePosition })
      else (sb, { t with runningStatus := sb })
    let ev := { ev with type := statusByte / 16 * 16, channel := statusByte % 16,
                        isMetaEvent := false, sysexData := [], sysexLength := 0 }
    if statusByte = 0xF0 ∨ statusByte = 0xF7 then
      let (length, t) := readTrackVariableLength t 0
      let (bytes, t) := readTrackBytesList t length
      ⟨fi, { t with runningStatus := 0 },
       { ev with sysexLength := length % U16, sysexData := bytes }, true⟩
    else if statusByte = 0xFF then
      metaDispatch fi t ev
    else
      voiceDispatch fi t ev

/-- The `MidiFileParser` object state.  `tracks` holds exactly `numTracks`
(clamped to `MAX_TRACKS = 16`) entries. -/
structure ParserState where
  fileInfo : MidiFileInfo
  tracks : List TrackState
  allTracksEnded : Bool
  fileLengthTicks : Nat
  sysexCount : Nat
  deriving Repr, DecidableEq

/-- The scanning loop of `MidiFileParser::readNextEvent`: `earliestTrack = -1`,
`earliestTime = 0xFFFFFFFF`, replace on strictly smaller `absoluteTime` of a
ready, non-ended track.  Returns the final `(earliestTrack, earliestTime)`. -/
def findEarliestAux (ts : List TrackState) (i : Nat) (best : Option Nat)
    (bestTime : Nat) : Option Nat × Nat :=
  match ts with
  | [] => (best, bestTime)
  | t :: rest =>
    if t.eventReady ∧ t.endOfTrack = false ∧ t.nextEvent.absoluteTime < bestTime then
      findEarliestAux rest (i + 1) (some i) t.nextEvent.absoluteTime
    else
      findEarliestAux rest (i + 1) best bestTime

/-- `MidiFileParser::readNextEvent`: emits the ready event with the smallest
`absoluteTime` (sentinel `0xFFFFFFFF`), re-reads the next event of the same
track into its `nextEvent` buffer, and sets `allTracksEnded` when no track was
selected.  Returns the updated parser and the emitted event (`none` = the
`false` return). -/
def readNextEvent (ps : ParserState) : ParserState × Option MidiEvent :=
  if ps.allTracksEnded then (ps, none)
  else
    match (findEarliestAux ps.tracks 0 none (U32 - 1)).1 with
    | none => ({ ps with allTracksEnded := true }, none)
    | some i =>
      let t := ps.tracks.getD i default
      let emitted := t.nextEvent
      let r := readTrackEvent ps.fileInfo t i t.nextEvent
      let t' := { r.track with nextEvent := r.event, eventReady := r.ok }
      ({ ps with fileInfo := r.fileInfo, tracks := ps.tracks.set i t' }, some emitted)

/-- A sequential reader over the whole file (the `FatFile` cursor). -/
structure FileReader where
  data : List Nat
  pos : Nat
  deriving Repr, DecidableEq

/-- `MidiFileParser::read8`: one byte, or 0 at end of file. -/
def read8 (f : FileReader) : Nat × FileReader :=
  if f.pos < f.data.length then
    ((f.data.getD f.pos 0) % 256, { f with pos := f.pos + 1 })
  else
    (0, f)

/-- `MidiFileParser::read16` (big-endian). -/
def read16 (f : FileReader) : Nat × FileReader :=
  let (b1, f) := read8 f
  let (b2, f) := read8 f
  (b1 * 256 + b2, f)

/-- `MidiFileParser::read32` (big-endian). -/
def read32 (f : FileReader) : Nat × FileReader :=
  let (b1, f) := read8 f
  let (b2, f) := read8 f
  let (b3, f) := read8 f
  let (b4, f) := read8 f
  (b1 * 16777216 + b2 * 65536 + b3 * 256 + b4, f)

/-- The four-byte chunk-name read (`midiFile->read(header, 4)` followed by
`strncmp`): succeeds exactly when the next four bytes equal `expected`. -/
def readChunkName (f : FileReader) (expected : List Nat) : Option FileReader :=
  if (List.range 4).map (fun k => (f.data.getD (f.pos + k) 0) % 256) = expected then
    some { f with pos := f.pos + 4 }
  else
    none

/-- `"MThd"` and `"MTrk"` as byte lists. -/
def mthd : List Nat := [77, 84, 104, 100]

def mtrk : List Nat := [77, 84, 114, 107]

/-- `MidiFileParser::readMidiHeader`: checks `"MThd"` and header length 6,
then reads format, track count (stored unclamped in `fileInfo`, clamped to 16
for the parser) and division.  Returns the updated `fileInfo`, the clamped
track count and the reader.  No validation of format or division is
performed. -/
def readMidiHeader (fi : MidiFileInfo) (f : FileReader) :
    Option (MidiFileInfo × Nat × FileReader) :=
  match readChunkName f mthd with
  | none => none
  | some f =>
    let (headerLength, f) := read32 f
    if headerLength = 6 then
      let (format, f) := read16 f
      let (numTracks, f) := read16 f
      let clamped := if numTracks > 16 then 16 else numTracks
      let (ticksPerQuarter, f) := read16 f
      some ({ fi with format := format, numTracks := numTracks,
                      ticksPerQuarter := ticksPerQuarter }, clamped, f)
    else
      none

/-- The first loop of `MidiFileParser::initializeTracks`: reads one `"MTrk"`
chunk header, slices the track's data, and seeks past it (`seekSet` fails when
the declared length runs past the end of the file). -/
def readOneTrackHeader (f : FileReader) : Option (TrackState × FileReader) :=
  match readChunkName f mtrk with
  | none => none
  | some f =>
    let (trackLength, f) := read32 f
    if f.pos + trackLength ≤ f.data.length then
      some ({ data := (f.data.drop f.pos).take trackLength,
              trackEndPos := trackLength,
              filePosition := 0, currentTick := 0, runningStatus := 0,
              endOfTrack := false, nextEvent := MidiEvent.default,
              eventReady := false },
            { f with pos := f.pos + trackLength })
    else
      none

/-- Iterating `readOneTrackHeader` over all tracks. -/
def readTrackHeaders (f : FileReader) : Nat → Option (List TrackState × FileReader)
  | 0 => some ([], f)
  | n + 1 =>
    match readOneTrackHeader f with
    | none => none
    | some (t, f) =>
      match readTrackHeaders f n with
      | none => none
      | some (ts, f) => some (t :: ts, f)

/-- The second loop of `MidiFileParser::initializeTracks`: pre-reads the first
event of each track in order, threading `fileInfo` (an initial tempo meta
updates it). -/
def preReadTracks (fi : MidiFileInfo) (ts : List TrackState) (i : Nat) :
    MidiFileInfo × List TrackState :=
  match ts with
  | [] => (fi, [])
  | t :: rest =>
    let r := readTrackEvent fi t i t.nextEvent
    let t' := { r.track with nextEvent := r.event, eventReady := r.ok }
    let (fi', rest') := preReadTracks r.fileInfo rest (i + 1)
    (fi', t' :: rest')

/-- `readMidiHeader` followed by `initializeTracks`, as run by both
`MidiFileParser::open` and `MidiFileParser::reset` (which re-reads from file
position 0). -/
def headerAndTracks (fi : MidiFileInfo) (fileData : List Nat) :
    Option (MidiFileInfo × List TrackState) :=
  match readMidiHeader fi { data := fileData, pos := 0 } with
  | none => none
  | some (fi, numTracks, f) =>
    match readTrackHeaders f numTracks with
    | none => none
    | some (ts, _) =>
      some (preReadTracks fi ts 0)

/-- `MidiFileParser::open` on a freshly constructed (or `close()`d) parser:
resets the tempo and time signature to their defaults, parses the header and
the track headers, pre-reads the first events, and leaves
`fileLengthTicks = 0` for the cache system.  `none` is the `false` return
("refuses to open"). -/
def openFile (fileData : List Nat) : Option ParserState :=
  let fi0 : MidiFileInfo :=
    { format := 0, numTracks := 0, ticksPerQuarter := 0,
      tempo := 500000, numerator := 4, denominator := 4, trackName := [] }
  match headerAndTracks fi0 fileData with
  | none => none
  | some (fi, ts) =>
    some { fileInfo := fi, tracks := ts, allTracksEnded := false,
           fileLengthTicks := 0, sysexCount := 0 }

/-- `MidiFileParser::reset`: seeks to 0 (always succeeds on the in-memory
byte list), re-runs `readMidiHeader` and `initializeTracks` ignoring their
results, and clears `allTracksEnded`.  The stored tempo and time signature are
NOT reset.  The fallback arm (header no longer parses) is unreachable for a
file that `openFile` accepted, since the byte list is immutable. -/
def parserReset (fileData : List Nat) (ps : ParserState) : ParserState :=
  match headerAndTracks ps.fileInfo fileData with
  | some (fi, ts) =>
    { ps with fileInfo := fi, tracks := ts, allTracksEnded := false }
  | none => { ps with allTracksEnded := false }

/-- `enum PlayerState`. -/
inductive PlayState where
  | Stopped
  | Playing
  | Paused
  deriving Repr, DecidableEq

/-- A message handed to the `MidiOutput` byte sink. -/
inductive MidiMsg where
  | noteOn (ch note vel : Nat)
  | noteOff (ch note vel : Nat)
  | polyAfterTouch (ch d1 d2 : Nat)
  | controlChange (ch cc val : Nat)
  | programChange (ch prog : Nat)
  | afterTouch (ch val : Nat)
  | pitchBend (ch : Nat) (bend : Int)
  | sysEx (payload : List Nat) (len : Nat)
  | clock
  | clockStart
  | clockContinue
  | clockStop
  deriving Repr, DecidableEq

/-- The `MidiPlayer` object state.  Wall-clock fields (`lastUpdateMicros`,
`lastClockMicros`, `lastTransportState`) are not represented: no claim
mentions them.  `midiFile` is the byte content of the loaded file (the
`FatFile*` the parser reads). -/
structure MidiPlayer where
  midiFile : List Nat
  parser : ParserState
  state : PlayState
  ticksElapsed : Nat
  microsecondsPerTick : Nat
  tempoPercent : Nat
  channelMutes : Nat
  velocityScale : Nat
  channelVelocities : List Nat
  userChannelPrograms : List Nat
  userChannelVolumes : List Nat
  userChannelPan : List Nat
  userChannelTranspose : List Int
  userChannelRouting : List Nat
  nextEvent : MidiEvent
  eventReady : Bool
  reachedEnd : Bool
  clockEnabled : Bool
  sysexEnabled : Bool
  deriving Repr, DecidableEq

/-- `MidiPlayer::calculateMicrosecondsPerTick`:
`tempo = (uint32)((uint64)tempo * 1000 / tempoPercent)`, then
`microsecondsPerTick = tempo / ticksPerQuarter`.  Lean's `Nat` division by
zero yields 0 where the C++ would divide by zero. -/
def calculateMicrosecondsPerTick (p : MidiPlayer) : MidiPlayer :=
  let tempo := p.parser.fileInfo.tempo
  let tempo := (tempo * 1000 / p.tempoPercent) % U32
  { p with microsecondsPerTick := tempo / p.parser.fileInfo.ticksPerQuarter }

/-- `MidiPlayer::setTempoPercent`: clamp to [500, 2000] tenth-percent, store,
recompute the tick duration. -/
def setTempoPercent (p : MidiPlayer) (percent : Nat) : MidiPlayer :=
  let percent := if percent < 500 then 500 else percent
  let percent := if percent > 2000 then 2000 else percent
  calculateMicrosecondsPerTick { p with tempoPercent := percent }

/-- `MidiPlayer::millisecondsToTicks`: 64-bit `ms * 1000 / microsecondsPerTick`
truncated to `uint32_t`; 0 when the tick duration is not yet known. -/
def millisecondsToTicks (p : MidiPlayer) (ms : Nat) : Nat :=
  if p.microsecondsPerTick = 0 then 0
  else (ms * 1000 / p.microsecondsPerTick) % U32

/-- Transpose-and-clamp of a note number (`int16_t` arithmetic, clamped to
0..127). -/
def clampNote (n : Int) : Nat :=
  if n < 0 then 0 else if n > 127 then 127 else n.toNat

/-- `MidiPlayer::sendMidiEvent`: the event-emission pipeline.  Returns the
updated player (a tempo meta recomputes the tick duration) and the messages
handed to the byte sink. -/
def sendMidiEvent (p : MidiPlayer) (ev : MidiEvent) : MidiPlayer × List MidiMsg :=
  if ev.isMetaEvent ∧ ev.data1 = 0x51 then (calculateMicrosecondsPerTick p, [])
  else if ev.isMetaEvent then (p, [])
  else if 16 ≤ ev.channel then (p, [])
  else
    -- routing: `channel` is 1-based; overrides are looked up on the original channel
    let channel :=
      if p.userChannelRouting.getD ev.channel 0 ≠ 255 then
        p.userChannelRouting.getD ev.channel 0 + 1
      else ev.channel + 1
    -- mute gate: note on/off on a muted channel is dropped
    if p.channelMutes.testBit ev.channel ∧ (ev.type = 0x90 ∨ ev.type = 0x80) then (p, [])
    else if ev.type = 0x80 then
      (p, [.noteOff channel
            (clampNote ((ev.data1 : Int) + p.userChannelTranspose.getD ev.channel 0))
            ev.data2])
    else if ev.type = 0x90 then
      if ev.data2 = 0 then
        (p, [.noteOff channel
              (clampNote ((ev.data1 : Int) + p.userChannelTranspose.getD ev.channel 0))
              0])
      else
        let scaledVelocity := ev.data2 * p.velocityScale * 2 / 100
        let scaledVelocity :=
          if p.channelVelocities.getD ev.channel 0 ≠ 0 then
            scaledVelocity * p.channelVelocities.getD ev.channel 0 / 100
          else scaledVelocity
        let scaledVelocity := if scaledVelocity > 127 then 127 else scaledVelocity
        let scaledVelocity := if scaledVelocity < 1 then 1 else scaledVelocity
        (p, [.noteOn channel
              (clampNote ((ev.data1 : Int) + p.userChannelTranspose.getD ev.channel 0))
              scaledVelocity])
    else if ev.type = 0xA0 then
      (p, [.polyAfterTouch channel ev.data1 ev.data2])
    else if ev.type = 0xB0 then
      if ev.data1 = 7 ∧ p.userChannelVolumes.getD ev.channel 0 < 128 then (p, [])
      else if ev.data1 = 10 ∧ p.userChannelPan.getD ev.channel 0 < 128 then (p, [])
      else (p, [.controlChange channel ev.data1 ev.data2])
    else if ev.type = 0xC0 then
      if p.userChannelPrograms.getD ev.channel 0 < 128 then (p, [])
      else (p, [.programChange channel ev.data1])
    else if ev.type = 0xD0 then
      (p, [.afterTouch channel ev.data1])
    else if ev.type = 0xE0 then
      (p, [.pitchBend channel ((ev.data2 * 128 + ev.data1 : Int) - 8192)])
    else if ev.type = 0xF0 then
      if p.sysexEnabled = false then (p, [])
      else if ev.sysexData ≠ [] ∧ ev.sysexLength > 0 then
        (p, [.sysEx ev.sysexData ev.sysexLength])
      else (p, [])
    else (p, [])

/-- `MidiPlayer::muteChannel`: sets the channel's mute bit and sends
All-Notes-Off (CC 123) on that channel. -/
def muteChannel (p : MidiPlayer) (channel : Nat) : MidiPlayer × List MidiMsg :=
  if 16 ≤ channel then (p, [])
  else ({ p with channelMutes := p.channelMutes ||| 2 ^ channel },
        [.controlChange (channel + 1) 123 0])

/-- `MidiPlayer::unmuteChannel`: clears the channel's mute bit. -/
def unmuteChannel (p : MidiPlayer) (channel : Nat) : MidiPlayer :=
  if 16 ≤ channel then p
  else { p with channelMutes := p.channelMutes &&& (U16 - 1 - 2 ^ channel) }

/-- A mute-gate operation (one of the two cited mutation entry points). -/
inductive MuteOp where
  | mute (c : Nat)
  | unmute (c : Nat)
  deriving Repr, DecidableEq

/-- Applying a sequence of mute/unmute operations. -/
def applyMuteOps (p : MidiPlayer) : List MuteOp → MidiPlayer
  | [] => p
  | .mute c :: rest => applyMuteOps (muteChannel p c).1 rest
  | .unmute c :: rest => applyMuteOps (unmuteChannel p c) rest

/-- `MidiPlayer::stopAllNotes`: CC 123 (All Notes Off) on channels 1..16. -/
def stopAllNotes : List MidiMsg :=
  (List.range 16).map (fun i => .controlChange (i + 1) 123 0)

/-- `MidiPlayer::pause`. -/
def pause (p : MidiPlayer) : MidiPlayer × List MidiMsg :=
  if p.state ≠ PlayState.Playing then (p, [])
  else ({ p with state := PlayState.Paused },
        (if p.clockEnabled then [MidiMsg.clockStop] else []) ++ stopAllNotes)

/-- `MidiPlayer::play`.  `parser.reset()` always succeeds on the in-memory
byte list, so the early-return on reset failure is not taken. -/
def play (p : MidiPlayer) : MidiPlayer × List MidiMsg :=
  if p.state = PlayState.Playing then (p, [])
  else
    let p := { p with reachedEnd := false }
    let wasStoppedAtStart := p.state = PlayState.Stopped ∧ p.ticksElapsed = 0
    let p :=
      if wasStoppedAtStart then
        let ps := parserReset p.midiFile p.parser
        let (ps, opt) := readNextEvent ps
        { p with parser := ps, eventReady := opt.isSome,
                 nextEvent := opt.getD p.nextEvent }
      else p
    let p := { p with state := PlayState.Playing }
    (p, stopAllNotes ++
        (if p.clockEnabled then
          (if wasStoppedAtStart then [MidiMsg.clockStart] else [MidiMsg.clockContinue])
         else []))

/-- `MidiPlayer::stop(resetToBeginning)`: early-returns when already stopped;
otherwise Clock Stop (when enabled), All-Notes-Off on all channels, and — when
requested — a parser reset with `ticksElapsed = 0` and a re-read of the first
event. -/
def stop (p : MidiPlayer) (resetToBeginning : Bool) : MidiPlayer × List MidiMsg :=
  if p.state = PlayState.Stopped then (p, [])
  else
    let p := { p with state := PlayState.Stopped }
    let msgs := (if p.clockEnabled then [MidiMsg.clockStop] else []) ++ stopAllNotes
    if resetToBeginning then
      let ps := parserReset p.midiFile p.parser
      let (ps, opt) := readNextEvent ps
      ({ p with parser := ps, ticksElapsed := 0, eventReady := opt.isSome,
                nextEvent := opt.getD p.nextEvent }, msgs)
    else (p, msgs)

/-- The skip loop of `MidiPlayer::fastForward` / `rewind`: reads and discards
events while one is ready and at or before the target tick, up to the
`MAX_EVENTS_PER_FF = 50000` safety cap (the fuel). -/
def ffLoop (ps : ParserState) (eventReady : Bool) (next : MidiEvent)
    (target : Nat) : Nat → ParserState × Bool × MidiEvent
  | 0 => (ps, eventReady, next)
  | fuel + 1 =>
    if eventReady ∧ next.absoluteTime ≤ target then
      let (ps', opt) := readNextEvent ps
      ffLoop ps' opt.isSome (opt.getD next) target fuel
    else (ps, eventReady, next)

/-- `MidiPlayer::fastForward(milliseconds)`: pause if playing, silence, clamp
the target tick to the cached file length, silently skip events up to it, set
`ticksElapsed` to the target, silence again, resume if previously playing. -/
def fastForward (p : MidiPlayer) (milliseconds : Nat) : MidiPlayer × List MidiMsg :=
  let wasPlaying := p.state = PlayState.Playing
  let (p, m1) := if wasPlaying then pause p else (p, [])
  let targetTicks := (p.ticksElapsed + millisecondsToTicks p milliseconds) % U32
  let maxTicks := p.parser.fileLengthTicks
  let targetTicks := if targetTicks > maxTicks then maxTicks else targetTicks
  let (ps, er, ne) := ffLoop p.parser p.eventReady p.nextEvent targetTicks 50000
  let p := { p with parser := ps, eventReady := er, nextEvent := ne,
                    ticksElapsed := targetTicks }
  let (p, m4) := if wasPlaying then play p else (p, [])
  (p, m1 ++ stopAllNotes ++ stopAllNotes ++ m4)

/-- `struct FileLengthCacheEntry` (main.cpp).  `filename` is the byte list in
the fixed 64-char field (at most 63 bytes plus the terminator). -/
structure FileLengthCacheEntry where
  filename : List Nat
  modtime : Nat
  lengthTicks : Nat
  sysexCount : Nat
  deriving Repr, DecidableEq

/-- `getCachedFileLength` (main.cpp): scans for the first entry whose stored
name equals `filename` (`strcmp`); on an mtime match returns the cached length
and writes the SysEx count through the out-pointer (`some`), otherwise —
stale entry or no entry — returns 0 without touching the out-pointer
(`none`).  The lazy `loadLengthCache()` call and the `saveLengthCache()`
persistence are file I/O around the in-memory array modelled here. -/
def getCachedFileLength (cache : List FileLengthCacheEntry) (filename : List Nat)
    (modtime : Nat) : Nat × Option Nat :=
  match cache with
  | [] => (0, none)
  | e :: rest =>
    if e.filename = filename then
      if e.modtime = modtime then (e.lengthTicks, some e.sysexCount)
      else (0, none)
    else getCachedFileLength rest filename modtime

/-- The update loop of `cacheFileLength`: overwrite the first entry whose
stored name equals `filename`, if any. -/
def updateCacheEntry (cache : List FileLengthCacheEntry) (filename : List Nat)
    (modtime lengthTicks sysexCount : Nat) : Option (List FileLengthCacheEntry) :=
  match cache with
  | [] => none
  | e :: rest =>
    if e.filename = filename then
      some ({ e with modtime := modtime, lengthTicks := lengthTicks,
                     sysexCount := sysexCount } :: rest)
    else
      match updateCacheEntry rest filename modtime lengthTicks sysexCount with
      | none => none
      | some rest' => some (e :: rest')

/-- `cacheFileLength` (main.cpp): update in place if the name is present;
otherwise append, evicting the oldest entry (index 0) when the cache holds
`MAX_CACHE_ENTRIES = 500` entries.  `strncpy(.., 63)` stores at most the
first 63 bytes of the name. -/
def cacheFileLength (cache : List FileLengthCacheEntry) (filename : List Nat)
    (modtime lengthTicks sysexCount : Nat) : List FileLengthCacheEntry :=
  match updateCacheEntry cache filename modtime lengthTicks sysexCount with
  | some cache' => cache'
  | none =>
    let entry : FileLengthCacheEntry :=
      { filename := filename.take 63, modtime := modtime,
        lengthTicks := lengthTicks, sysexCount := sysexCount }
    if cache.length < 500 then cache ++ [entry]
    else cache.drop 1 ++ [entry]

/-! ## Positional views of the track readers

Each track reader changes only `filePosition`; these functions compute the
byte values and the new position directly, and the lemmas below rewrite the
readers into them. -/

/-- The byte `readTrackByte` returns at a given position. -/
def byteGet (data : List Nat) (pos : Nat) : Nat :=
  if pos < data.length then (data.getD pos 0) % 256 else 0

/-- The position after one `readTrackByte`. -/
def posInc (data : List Nat) (pos : Nat) : Nat :=
  if pos < data.length then pos + 1 else pos

/-- The position after skipping `n` bytes. -/
def skipPos (data : List Nat) (pos : Nat) : Nat → Nat
  | 0 => pos
  | n + 1 => skipPos data (posInc data pos) n

/-- Bytes collected and end position of an `n`-byte read. -/
def bytesListp (data : List Nat) (pos : Nat) : Nat → List Nat × Nat
  | 0 => ([], pos)
  | n + 1 =>
    let (bs, p) := bytesListp data (posInc data pos) n
    (byteGet data pos :: bs, p)

theorem readTrackByte_eq (t : TrackState) :
    readTrackByte t =
      (byteGet t.data t.filePosition,
       { t with filePosition := posInc t.data t.filePosition }) := by
  unfold readTrackByte byteGet posInc
  split <;> rfl

/-- `readTrackVariableLength` satisfies the source's do-while recurrence. -/
theorem readTrackVariableLength_rec (t : TrackState) (acc : Nat) :
    readTrackVariableLength t acc =
      if t.filePosition < t.data.length then
        let b := (t.data.getD t.filePosition 0) % 256
        let acc' := (acc * 128 + b % 128) % U32
        let t' := { t with filePosition := t.filePosition + 1 }
        if b < 128 then (acc', t') else readTrackVariableLength t' acc'
      else ((acc * 128) % U32, t) := by
  simp only [readTrackVariableLength]
  rw [readVLQp_rec]
  by_cases hp : t.filePosition < t.data.length
  · rw [if_pos hp, if_pos hp]
    by_cases hb : t.data.getD t.filePosition 0 % 256 < 128
    · rw [if_pos hb, if_pos hb]
    · rw [if_neg hb, if_neg hb]
  · rw [if_neg hp, if_neg hp]

theorem readTrackVariableLength_eq (t : TrackState) (acc : Nat) :
    readTrackVariableLength t acc =
      ((readVLQp t.data t.filePosition acc).1,
       { t with filePosition := (readVLQp t.data t.filePosition acc).2 }) := rfl

theorem skipTrackBytes_eq (t : TrackState) (n : Nat) :
    skipTrackBytes t n = { t with filePosition := skipPos t.data t.filePosition n } := by
  induction n generalizing t with
  | zero => rfl
  | succ n ih =>
    rw [skipTrackBytes, skipPos, readTrackByte_eq]
    exact ih _

theorem readTrackBytesList_eq (t : TrackState) (n : Nat) :
    readTrackBytesList t n =
      ((bytesListp t.data t.filePosition n).1,
       { t with filePosition := (bytesListp t.data t.filePosition n).2 }) := by
  induction n generalizing t with
  | zero => rfl
  | succ n ih =>
    rw [readTrackBytesList, bytesListp, readTrackByte_eq]
    simp only []
    rw [ih]

/-! ## Invariants of one `readTrackEvent` call -/

section
attribute [local irreducible] readVLQFuel readVLQp readTrackVariableLength
  readTrackByte skipTrackBytes readTrackBytesList byteGet posInc skipPos bytesListp decPos

theorem metaDispatch_currentTick (fi : MidiFileInfo) (t : TrackState) (ev : MidiEvent) :
    (metaDispatch fi t ev).track.currentTick = t.currentTick := by
  simp only [metaDispatch, readTrackByte_eq, readTrackVariableLength_eq,
    skipTrackBytes_eq, readTrackBytesList_eq]
  split_ifs <;> rfl

theorem metaDispatch_absTime (fi : MidiFileInfo) (t : TrackState) (ev : MidiEvent) :
    (metaDispatch fi t ev).event.absoluteTime = ev.absoluteTime := by
  simp only [metaDispatch, readTrackByte_eq, readTrackVariableLength_eq,
    skipTrackBytes_eq, readTrackBytesList_eq]
  split_ifs <;> rfl

theorem voiceDispatch_currentTick (fi : MidiFileInfo) (t : TrackState) (ev : MidiEvent) :
    (voiceDispatch fi t ev).track.currentTick = t.currentTick := by
  simp only [voiceDispatch, readTrackByte_eq]
  split_ifs <;> rfl

theorem voiceDispatch_absTime (fi : MidiFileInfo) (t : TrackState) (ev : MidiEvent) :
    (voiceDispatch fi t ev).event.absoluteTime = ev.absoluteTime := by
  simp only [voiceDispatch, readTrackByte_eq]
  split_ifs <;> rfl


theorem readTrackEvent_absTime (fi : MidiFileInfo) (t : TrackState) (n : Nat)
    (prev : MidiEvent) :
    (readTrackEvent fi t n prev).ok = true →
      (readTrackEvent fi t n prev).event.absoluteTime
        = (readTrackEvent fi t n prev).track.currentTick := by
  simp only [readTrackEvent, readTrackByte_eq, readTrackVariableLength_eq,
    readTrackBytesList_eq]
  split_ifs <;> intro h
  case _ => exact absurd h (by simp)
  case _ => exact absurd h (by simp)
  case _ => rfl
  case _ => rw [metaDispatch_absTime, metaDispatch_currentTick]
  case _ => rw [voiceDispatch_absTime, voiceDispatch_currentTick]
  case _ => rfl
  case _ => rw [metaDispatch_absTime, metaDispatch_currentTick]
  case _ => rw [voiceDispatch_absTime, voiceDispatch_currentTick]

end

/-! ## Selection and monotonicity of `readNextEvent` -/

/-- A track considered by the scan loop of `readNextEvent`: it has a buffered
event and has not ended. -/
def ReadyT (t : TrackState) : Prop := t.eventReady = true ∧ t.endOfTrack = false

instance (t : TrackState) : Decidable (ReadyT t) := by
  unfold ReadyT; infer_instance

/-- The buffered-event invariant: every buffered event's `absoluteTime` equals
its track's `currentTick` (established by `open` and preserved by
`readNextEvent`). -/
def BufInv (ps : ParserState) : Prop :=
  ∀ k, k < ps.tracks.length → (ps.tracks.getD k default).eventReady = true →
    (ps.tracks.getD k default).nextEvent.absoluteTime
      = (ps.tracks.getD k default).currentTick

/-- No track's `currentTick` decreased between two parser states — i.e. the
`currentTick += deltaTime` additions did not wrap around `2^32` in between. -/
def NoWrapStep (ps ps' : ParserState) : Prop :=
  ∀ k, k < ps.tracks.length →
    (ps.tracks.getD k default).currentTick ≤ (ps'.tracks.getD k default).currentTick

instance (ps ps' : ParserState) : Decidable (NoWrapStep ps ps') := by
  unfold NoWrapStep; infer_instance

/-- Full characterisation of the scan loop: the final `earliestTime` is a
lower bound of `bestTime` and of all ready tracks' times; and either the
accumulator is returned unchanged, or the winner is the first ready track
attaining the final time, which strictly beats `bestTime` and all ready tracks
before it. -/
theorem findEarliestAux_spec (ts : List TrackState) (i : Nat) (best : Option Nat)
    (bestTime : Nat) :
    (∀ k, k < ts.length → ReadyT (ts.getD k default) →
        (findEarliestAux ts i best bestTime).2 ≤ (ts.getD k default).nextEvent.absoluteTime)
    ∧ (findEarliestAux ts i best bestTime).2 ≤ bestTime
    ∧ ((findEarliestAux ts i best bestTime).1 = best
          ∧ (findEarliestAux ts i best bestTime).2 = bestTime
       ∨ ∃ k, k < ts.length
          ∧ (findEarliestAux ts i best bestTime).1 = some (i + k)
          ∧ ReadyT (ts.getD k default)
          ∧ (findEarliestAux ts i best bestTime).2
              = (ts.getD k default).nextEvent.absoluteTime
          ∧ (ts.getD k default).nextEvent.absoluteTime < bestTime
          ∧ ∀ m, m < k → ReadyT (ts.getD m default) →
              (findEarliestAux ts i best bestTime).2
                < (ts.getD m default).nextEvent.absoluteTime) := by
  induction ts generalizing i best bestTime with
  | nil =>
    refine ⟨fun k hk => absurd hk (by simp), le_refl _, Or.inl ⟨rfl, rfl⟩⟩
  | cons t rest ih =>
    rw [findEarliestAux]
    by_cases hc : t.eventReady ∧ t.endOfTrack = false ∧ t.nextEvent.absoluteTime < bestTime
    · simp only [if_pos hc]
      obtain ⟨ih1, ih2, ih3⟩ := ih (i + 1) (some i) t.nextEvent.absoluteTime
      refine ⟨?_, le_trans ih2 (le_of_lt hc.2.2), ?_⟩
      · intro k hk hr
        match k with
        | 0 => simpa using ih2
        | k + 1 =>
          simp only [List.getD_cons_succ] at hr ⊢
          exact ih1 k (by simpa using hk) hr
      · rcases ih3 with ⟨h1, h2⟩ | ⟨k, hk, h1, h2, h3, h4, h5⟩
        · refine Or.inr ⟨0, by simp, by simpa using h1, ⟨hc.1, hc.2.1⟩, by simpa using h2,
            hc.2.2, fun m hm => absurd hm (by omega)⟩
        · refine Or.inr ⟨k + 1, by simpa using hk, by
            rw [h1]; congr 1; omega, by simpa using h2, by simpa using h3,
            lt_trans h4 hc.2.2, ?_⟩
          intro m hm hr
          match m with
          | 0 => simp only [List.getD_cons_zero]; omega
          | m + 1 =>
            simp only [List.getD_cons_succ] at hr ⊢
            exact h5 m (by omega) hr
    · simp only [if_neg hc]
      obtain ⟨ih1, ih2, ih3⟩ := ih (i + 1) best bestTime
      refine ⟨?_, ih2, ?_⟩
      · intro k hk hr
        match k with
        | 0 =>
          simp only [List.getD_cons_zero] at hr ⊢
          have : bestTime ≤ t.nextEvent.absoluteTime := by
            rcases hr with ⟨hr1, hr2⟩
            by_contra hlt
            exact hc ⟨hr1, hr2, by omega⟩
          exact le_trans ih2 this
        | k + 1 =>
          simp only [List.getD_cons_succ] at hr ⊢
          exact ih1 k (by simpa using hk) hr
      · rcases ih3 with ⟨h1, h2⟩ | ⟨k, hk, h1, h2, h3, h4, h5⟩
        · exact Or.inl ⟨h1, h2⟩
        · refine Or.inr ⟨k + 1, by simpa using hk, by rw [h1]; congr 1; omega,
            by simpa using h2, by simpa using h3, h4, ?_⟩
          intro m hm hr
          match m with
          | 0 =>
            simp only [List.getD_cons_zero] at hr ⊢
            have : bestTime ≤ t.nextEvent.absoluteTime := by
              rcases hr with ⟨hr1, hr2⟩
              by_contra hlt
              exact hc ⟨hr1, hr2, by omega⟩
            omega
          | m + 1 =>
            simp only [List.getD_cons_succ] at hr ⊢
            exact h5 m (by omega) hr

theorem getD_set_self {α : Type _} (l : List α) (i : Nat) (a d : α) (h : i < l.length) :
    (l.set i a).getD i d = a := by
  induction l generalizing i with
  | nil => simp at h
  | cons x xs ih =>
    match i with
    | 0 => rfl
    | i + 1 => simpa using ih i (by simpa using h)

theorem getD_set_ne {α : Type _} (l : List α) (i k : Nat) (a d : α) (h : i ≠ k) :
    (l.set i a).getD k d = l.getD k d := by
  induction l generalizing i k with
  | nil => simp
  | cons x xs ih =>
    match i, k with
    | 0, 0 => exact absurd rfl h
    | 0, k + 1 => rfl
    | i + 1, 0 => rfl
    | i + 1, k + 1 => simpa using ih i k (by omega)

/-- If no track is ready, `readNextEvent` emits nothing. -/
theorem readNextEvent_none_of_noReady (ps : ParserState)
    (h : ∀ k, k < ps.tracks.length → ¬ ReadyT (ps.tracks.getD k default)) :
    (readNextEvent ps).2 = none := by
  unfold readNextEvent
  by_cases hA : ps.allTracksEnded
  · simp [hA]
  · simp only [hA, if_neg, ite_false, Bool.false_eq_true]
    obtain ⟨-, -, h3⟩ := findEarliestAux_spec ps.tracks 0 none (U32 - 1)
    rcases h3 with ⟨h1, -⟩ | ⟨k, hk, -, hr, -⟩
    · rw [h1]
    · exact absurd hr (h k hk)

/-- If some track is ready strictly below the `0xFFFFFFFF` sentinel and the
parser has not latched `allTracksEnded`, `readNextEvent` emits an event. -/
theorem readNextEvent_isSome (ps : ParserState)
    (hA : ps.allTracksEnded = false) (j : Nat) (hj : j < ps.tracks.length)
    (hr : ReadyT (ps.tracks.getD j default))
    (ht : (ps.tracks.getD j default).nextEvent.absoluteTime < U32 - 1) :
    ((readNextEvent ps).2).isSome = true := by
  unfold readNextEvent
  simp only [hA, Bool.false_eq_true, if_neg, ite_false]
  obtain ⟨h1, -, h3⟩ := findEarliestAux_spec ps.tracks 0 none (U32 - 1)
  rcases h3 with ⟨hb, he⟩ | ⟨k, hk, hb, -⟩
  · have := h1 j hj hr
    omega
  · rw [hb]
    rfl

/-- Characterisation of a successful `readNextEvent`: the emitted event is the
buffered event of a ready track whose time is minimal (and below the
sentinel), the winner is the least index among the minimisers, and only that
track is re-read. -/
theorem readNextEvent_some_spec (ps : ParserState) (e : MidiEvent)
    (hsome : (readNextEvent ps).2 = some e) :
    ps.allTracksEnded = false ∧
    ∃ i, i < ps.tracks.length ∧ ReadyT (ps.tracks.getD i default)
      ∧ e = (ps.tracks.getD i default).nextEvent
      ∧ e.absoluteTime < U32 - 1
      ∧ (∀ j, j < ps.tracks.length → ReadyT (ps.tracks.getD j default) →
          e.absoluteTime ≤ (ps.tracks.getD j default).nextEvent.absoluteTime)
      ∧ (∀ j, j < ps.tracks.length → ReadyT (ps.tracks.getD j default) →
          (ps.tracks.getD j default).nextEvent.absoluteTime = e.absoluteTime → i ≤ j)
      ∧ (readNextEvent ps).1.tracks
          = ps.tracks.set i
              { (readTrackEvent ps.fileInfo (ps.tracks.getD i default) i
                  (ps.tracks.getD i default).nextEvent).track with
                nextEvent := (readTrackEvent ps.fileInfo (ps.tracks.getD i default) i
                  (ps.tracks.getD i default).nextEvent).event,
                eventReady := (readTrackEvent ps.fileInfo (ps.tracks.getD i default) i
                  (ps.tracks.getD i default).nextEvent).ok } := by
  unfold readNextEvent at hsome ⊢
  by_cases hA : ps.allTracksEnded
  · simp [hA] at hsome
  · simp only [hA, Bool.false_eq_true, if_neg, ite_false] at hsome ⊢
    refine ⟨by revert hA; cases ps.allTracksEnded <;> simp, ?_⟩
    obtain ⟨h1, -, h3⟩ := findEarliestAux_spec ps.tracks 0 none (U32 - 1)
    rcases h3 with ⟨hb, -⟩ | ⟨k, hk, hb, hr, htime, hlt, hmin⟩
    · rw [hb] at hsome
      simp at hsome
    · rw [hb] at hsome ⊢
      simp only [Nat.zero_add] at hsome ⊢
      refine ⟨k, hk, hr, ?_, ?_, ?_, ?_, ?_⟩
      · exact (Option.some.injEq _ _ ▸ hsome).symm
      · have : e = (ps.tracks.getD k default).nextEvent :=
          (Option.some.injEq _ _ ▸ hsome).symm
        rw [this]
        omega
      · intro j hj hrj
        have : e = (ps.tracks.getD k default).nextEvent :=
          (Option.some.injEq _ _ ▸ hsome).symm
        rw [this, ← htime]
        exact h1 j hj hrj
      · intro j hj hrj heq
        have he : e = (ps.tracks.getD k default).nextEvent :=
          (Option.some.injEq _ _ ▸ hsome).symm
        by_contra hcon
        have hjk : j < k := by omega
        have := hmin j hjk hrj
        rw [heq, he, ← htime] at this
        omega
      · rfl

/-- `readNextEvent` preserves the buffered-event invariant. -/
theorem BufInv_step (ps : ParserState) (h : BufInv ps) : BufInv (readNextEvent ps).1 := by
  by_cases hs : ((readNextEvent ps).2).isSome
  · obtain ⟨e, he⟩ := Option.isSome_iff_exists.mp hs
    obtain ⟨-, i, hi, -, -, -, -, -, htracks⟩ := readNextEvent_some_spec ps e he
    intro k hk hkr
    rw [htracks] at hk hkr ⊢
    by_cases hik : i = k
    · subst hik
      rw [getD_set_self _ _ _ _ hi] at hkr ⊢
      exact readTrackEvent_absTime _ _ _ _ hkr
    · rw [getD_set_ne _ _ _ _ _ hik] at hkr ⊢
      exact h k (by simpa using hk) hkr
  · have hnone : (readNextEvent ps).2 = none := by
      cases hopt : (readNextEvent ps).2
      · rfl
      · rw [hopt] at hs; simp at hs
    unfold readNextEvent at hnone ⊢
    by_cases hA : ps.allTracksEnded
    · simpa [hA] using h
    · simp only [hA, Bool.false_eq_true, if_neg, ite_false] at hnone ⊢
      cases hb : (findEarliestAux ps.tracks 0 none (U32 - 1)).1
      · simpa [hb] using h
      · rw [hb] at hnone
        simp at hnone

/-- After a successful `readNextEvent` with no tick wrap-around, every ready
track of the new state sits at or after the emitted event. -/
theorem step_lowerBound (ps : ParserState) (e : MidiEvent)
    (hInv : BufInv ps) (hsome : (readNextEvent ps).2 = some e)
    (hNW : NoWrapStep ps (readNextEvent ps).1) :
    ∀ j, j < (readNextEvent ps).1.tracks.length →
      ReadyT ((readNextEvent ps).1.tracks.getD j default) →
      e.absoluteTime ≤ ((readNextEvent ps).1.tracks.getD j default).nextEvent.absoluteTime := by
  obtain ⟨-, i, hi, hri, hei, -, hmin, -, htracks⟩ := readNextEvent_some_spec ps e hsome
  intro j hj hrj
  rw [htracks] at hj hrj ⊢
  have hj' : j < ps.tracks.length := by simpa using hj
  by_cases hij : i = j
  · subst hij
    rw [getD_set_self _ _ _ _ hi] at hrj ⊢
    have hinv' := BufInv_step ps hInv
    have h2 := hinv' i (by rw [htracks]; simpa using hi)
    rw [htracks, getD_set_self _ _ _ _ hi] at h2
    rw [h2 hrj.1]
    have h3 := hNW i hi
    rw [htracks, getD_set_self _ _ _ _ hi] at h3
    calc e.absoluteTime = (ps.tracks.getD i default).nextEvent.absoluteTime := by rw [hei]
      _ = (ps.tracks.getD i default).currentTick := hInv i hi hri.1
      _ ≤ _ := h3
  · rw [getD_set_ne _ _ _ _ _ hij] at hrj ⊢
    exact hmin j hj' hrj

/-- Two consecutive successful `readNextEvent` calls emit events with
non-decreasing `absoluteTime`, provided no track tick wrapped in the first
step. -/
theorem step_mono (ps : ParserState) (e e' : MidiEvent)
    (hInv : BufInv ps)
    (h1 : (readNextEvent ps).2 = some e)
    (hNW : NoWrapStep ps (readNextEvent ps).1)
    (h2 : (readNextEvent (readNextEvent ps).1).2 = some e') :
    e.absoluteTime ≤ e'.absoluteTime := by
  obtain ⟨-, i', hi', hri', hei', -, -, -, -⟩ :=
    readNextEvent_some_spec (readNextEvent ps).1 e' h2
  have := step_lowerBound ps e hInv h1 hNW i' hi' hri'
  rw [hei']
  exact this

/-- Iterated `readNextEvent`. -/
def runSteps (ps : ParserState) : Nat → ParserState
  | 0 => ps
  | n + 1 => (readNextEvent (runSteps ps n)).1

/-- The `n`-th event emitted by successive `readNextEvent` calls. -/
def emittedAt (ps : ParserState) (n : Nat) : Option MidiEvent :=
  (readNextEvent (runSteps ps n)).2

theorem BufInv_runSteps (ps : ParserState) (h : BufInv ps) (n : Nat) :
    BufInv (runSteps ps n) := by
  induction n with
  | zero => exact h
  | succ n ih => exact BufInv_step _ ih

/-- The pre-read loop of `initializeTracks` leaves every buffered event's
`absoluteTime` equal to its track's `currentTick`. -/
theorem preReadTracks_inv (fi : MidiFileInfo) (ts : List TrackState) (i : Nat) :
    ∀ k, k < (preReadTracks fi ts i).2.length →
      ((preReadTracks fi ts i).2.getD k default).eventReady = true →
      ((preReadTracks fi ts i).2.getD k default).nextEvent.absoluteTime
        = ((preReadTracks fi ts i).2.getD k default).currentTick := by
  induction ts generalizing fi i with
  | nil => intro k hk; simp [preReadTracks] at hk
  | cons t rest ih =>
    intro k hk hkr
    rw [preReadTracks] at hk hkr ⊢
    match k with
    | 0 =>
      simp only [List.getD_cons_zero] at hkr ⊢
      exact readTrackEvent_absTime _ _ _ _ hkr
    | k + 1 =>
      simp only [List.getD_cons_succ] at hkr ⊢
      exact ih _ _ k (by simpa using hk) hkr

/-- `open` establishes the buffered-event invariant. -/
theorem openFile_inv (file : List Nat) (ps : ParserState)
    (h : openFile file = some ps) : BufInv ps := by
  unfold openFile headerAndTracks at h
  dsimp only at h
  cases h1 : readMidiHeader
      { format := 0, numTracks := 0, ticksPerQuarter := 0,
        tempo := 500000, numerator := 4, denominator := 4, trackName := [] }
      { data := file, pos := 0 } with
  | none => rw [h1] at h; simp at h
  | some v =>
    obtain ⟨fi1, numTracks, f⟩ := v
    rw [h1] at h
    dsimp only at h
    cases h2 : readTrackHeaders f numTracks with
    | none => rw [h2] at h; simp at h
    | some w =>
      obtain ⟨ts0, f'⟩ := w
      rw [h2] at h
      dsimp only at h
      simp only [Option.some.injEq] at h
      intro k hk hkr
      rw [← h] at hk hkr ⊢
      exact preReadTracks_inv fi1 ts0 0 k hk hkr

/-- C1 (amended): for every opened file, `readNextEvent` emits nothing when no
track has a buffered event; a successful call emits the buffered event of a
ready non-ended track whose `absoluteTime` is minimal among the ready tracks
and strictly below the `0xFFFFFFFF` sentinel, ties broken by the lowest track
index; an event is guaranteed whenever some ready track sits strictly below
the sentinel; and the emitted `absoluteTime` sequence is non-decreasing across
consecutive calls as long as no track's 32-bit tick counter wraps. -/
theorem readNextEvent_merge_ordered (file : List Nat) (ps : ParserState)
    (hopen : openFile file = some ps) :
    BufInv ps
    ∧ (∀ n, (∀ k, k < (runSteps ps n).tracks.length →
          ¬ ReadyT ((runSteps ps n).tracks.getD k default)) →
        emittedAt ps n = none)
    ∧ (∀ n e, emittedAt ps n = some e →
        ∃ i, i < (runSteps ps n).tracks.length
          ∧ ReadyT ((runSteps ps n).tracks.getD i default)
          ∧ e = ((runSteps ps n).tracks.getD i default).nextEvent
          ∧ e.absoluteTime < U32 - 1
          ∧ (∀ j, j < (runSteps ps n).tracks.length →
              ReadyT ((runSteps ps n).tracks.getD j default) →
              e.absoluteTime
                ≤ ((runSteps ps n).tracks.getD j default).nextEvent.absoluteTime)
          ∧ (∀ j, j < (runSteps ps n).tracks.length →
              ReadyT ((runSteps ps n).tracks.getD j default) →
              ((runSteps ps n).tracks.getD j default).nextEvent.absoluteTime
                = e.absoluteTime → i ≤ j))
    ∧ (∀ n j, (runSteps ps n).allTracksEnded = false →
        j < (runSteps ps n).tracks.length →
        ReadyT ((runSteps ps n).tracks.getD j default) →
        ((runSteps ps n).tracks.getD j default).nextEvent.absoluteTime < U32 - 1 →
        (emittedAt ps n).isSome = true)
    ∧ (∀ n e e', emittedAt ps n = some e → emittedAt ps (n + 1) = some e' →
        NoWrapStep (runSteps ps n) (runSteps ps (n + 1)) →
        e.absoluteTime ≤ e'.absoluteTime) := by
  have hInv : BufInv ps := openFile_inv file ps hopen
  refine ⟨hInv, ?_, ?_, ?_, ?_⟩
  · intro n h
    exact readNextEvent_none_of_noReady _ h
  · intro n e he
    obtain ⟨-, i, hi, hri, hei, hlt, hmin, htie, -⟩ :=
      readNextEvent_some_spec (runSteps ps n) e he
    exact ⟨i, hi, hri, hei, hlt, hmin, htie⟩
  · intro n j hA hj hrj hlt
    exact readNextEvent_isSome _ hA j hj hrj hlt
  · intro n e e' h1 h2 hNW
    exact step_mono (runSteps ps n) e e' (BufInv_runSteps ps hInv n) h1 hNW h2

/-- Scenario S1 of the specification: a minimal type-0 file. -/
def fileS1 : List Nat :=
  [0x4D, 0x54, 0x68, 0x64, 0, 0, 0, 6, 0, 0, 0, 1, 0, 0x60,
   0x4D, 0x54, 0x72, 0x6B, 0, 0, 0, 12,
   0x00, 0x90, 0x3C, 0x64, 0x60, 0x80, 0x3C, 0x40, 0x00, 0xFF, 0x2F, 0x00]

/-- The parser state after opening `fileS1`. -/
def psS1 : ParserState :=
  (openFile fileS1).getD
    { fileInfo := ⟨0, 0, 0, 0, 0, 0, []⟩, tracks := [], allTracksEnded := false,
      fileLengthTicks := 0, sysexCount := 0 }

/-- The first two events emitted from `fileS1`. -/
def evS1a : MidiEvent := (emittedAt psS1 0).getD MidiEvent.default

def evS1b : MidiEvent := (emittedAt psS1 1).getD MidiEvent.default

/-- Witness for `readNextEvent_merge_ordered` at scenario S1: the hypotheses
are discharged by evaluation and the ordering conjunct yields the two
concrete emission times. -/
theorem readNextEvent_merge_ordered_witness :
    openFile fileS1 = some psS1
    ∧ emittedAt psS1 0 = some evS1a
    ∧ emittedAt psS1 1 = some evS1b
    ∧ evS1a.absoluteTime ≤ evS1b.absoluteTime :=
  ⟨by decide, by decide, by decide,
   (readNextEvent_merge_ordered fileS1 psS1 (by decide)).2.2.2.2 0 evS1a evS1b
     (by decide) (by decide) (by decide)⟩

/-- A file whose single track starts with the five-byte delta VLQ encoding
`0xFFFFFFFF`, followed by a NoteOn. -/
def fileSentinel : List Nat :=
  [0x4D, 0x54, 0x68, 0x64, 0, 0, 0, 6, 0, 0, 0, 1, 0, 0x60,
   0x4D, 0x54, 0x72, 0x6B, 0, 0, 0, 8,
   0x8F, 0xFF, 0xFF, 0xFF, 0x7F, 0x90, 0x40, 0x40]

def psSentinel : ParserState :=
  (openFile fileSentinel).getD psS1

/-- A file whose single track has a NoteOn at tick `0xFFFFFFFE` followed by a
NoteOn two ticks later, wrapping the 32-bit tick counter to 0. -/
def fileWrap : List Nat :=
  [0x4D, 0x54, 0x68, 0x64, 0, 0, 0, 6, 0, 0, 0, 1, 0, 0x60,
   0x4D, 0x54, 0x72, 0x6B, 0, 0, 0, 12,
   0x8F, 0xFF, 0xFF, 0xFF, 0x7E, 0x90, 0x40, 0x40, 0x02, 0x90, 0x40, 0x40]

def psWrap : ParserState :=
  (openFile fileWrap).getD psS1

/-- C1 counterexample: (i) on `fileSentinel`, track 0 is ready and not ended
with a buffered event at `0xFFFFFFFF`, yet `readNextEvent` returns `None`
(the sentinel comparison `absoluteTime < 0xFFFFFFFF` excludes it); (ii) on
`fileWrap`, the emitted `absoluteTime` sequence decreases (4294967294 then 0)
because the 32-bit tick counter wraps. -/
theorem readNextEvent_merge_counterexample :
    openFile fileSentinel = some psSentinel
    ∧ (psSentinel.tracks.getD 0 default).eventReady = true
    ∧ (psSentinel.tracks.getD 0 default).endOfTrack = false
    ∧ (psSentinel.tracks.getD 0 default).nextEvent.absoluteTime = 4294967295
    ∧ (readNextEvent psSentinel).2 = none
    ∧ openFile fileWrap = some psWrap
    ∧ (emittedAt psWrap 0).map MidiEvent.absoluteTime = some 4294967294
    ∧ (emittedAt psWrap 1).map MidiEvent.absoluteTime = some 0 := by
  decide

/-! ## C3: tick-duration arithmetic -/

/-- C3: for tempo-percent in [500, 2000] tenth-percent units, positive
division and a stored tempo in [100000, 10000000] µs/quarter, the computed
`microsecondsPerTick` equals the exact integer
`(tempo * 1000) / (tempoPercent * division)` — the nested 64-bit divisions
introduce no overflow and no extra truncation. -/
theorem calculateMicrosecondsPerTick_exact (p : MidiPlayer)
    (htp1 : 500 ≤ p.tempoPercent) (htp2 : p.tempoPercent ≤ 2000)
    (hdiv : 0 < p.parser.fileInfo.ticksPerQuarter)
    (ht1 : 100000 ≤ p.parser.fileInfo.tempo)
    (ht2 : p.parser.fileInfo.tempo ≤ 10000000) :
    (calculateMicrosecondsPerTick p).microsecondsPerTick
      = p.parser.fileInfo.tempo * 1000
          / (p.tempoPercent * p.parser.fileInfo.ticksPerQuarter) := by
  unfold calculateMicrosecondsPerTick
  dsimp only
  have hsmall : p.parser.fileInfo.tempo * 1000 / p.tempoPercent < U32 := by
    have h1 : p.parser.fileInfo.tempo * 1000 / p.tempoPercent
        ≤ p.parser.fileInfo.tempo * 1000 / 500 :=
      Nat.div_le_div_left htp1 (by norm_num)
    have h2 : p.parser.fileInfo.tempo * 1000 / 500 ≤ 10000000 * 1000 / 500 :=
      Nat.div_le_div_right (by omega)
    unfold U32
    omega
  rw [Nat.mod_eq_of_lt hsmall, Nat.div_div_eq_div_mul]

/-- A concrete player fixture: stopped, empty file, all overrides at their
constructor defaults. -/
def basePlayer : MidiPlayer :=
  { midiFile := [],
    parser := { fileInfo := ⟨0, 0, 96, 500000, 4, 4, []⟩, tracks := [],
                allTracksEnded := false, fileLengthTicks := 0, sysexCount := 0 },
    state := PlayState.Stopped, ticksElapsed := 0, microsecondsPerTick := 0,
    tempoPercent := 1000, channelMutes := 0, velocityScale := 50,
    channelVelocities := List.replicate 16 100,
    userChannelPrograms := List.replicate 16 128,
    userChannelVolumes := List.replicate 16 255,
    userChannelPan := List.replicate 16 255,
    userChannelTranspose := List.replicate 16 0,
    userChannelRouting := List.replicate 16 255,
    nextEvent := MidiEvent.default, eventReady := false, reachedEnd := false,
    clockEnabled := false, sysexEnabled := true }

/-- Witness for `calculateMicrosecondsPerTick_exact` at the default tempo
(500000 µs/quarter, 100.0 %, division 96): 5208 µs per tick. -/
theorem calculateMicrosecondsPerTick_exact_witness :
    500 ≤ basePlayer.tempoPercent
    ∧ (calculateMicrosecondsPerTick basePlayer).microsecondsPerTick
        = basePlayer.parser.fileInfo.tempo * 1000
            / (basePlayer.tempoPercent * basePlayer.parser.fileInfo.ticksPerQuarter) :=
  ⟨by decide,
   calculateMicrosecondsPerTick_exact basePlayer (by decide) (by decide)
     (by decide) (by decide) (by decide)⟩

/-! ## C2: NoteOn velocity pipeline -/

/-- C2: a NoteOn that reaches the emit stage (non-meta, valid unmuted
channel) with velocity `v > 0` is emitted with velocity
`clamp [1,127] (applyChannelPct ((v * velocityScale * 2) / 100))`, where the
per-channel percentage is applied iff that override is nonzero — the exact
integer formula, with no shortcut for `velocityScale = 50`; and a NoteOn with
velocity 0 is emitted as a NoteOff. -/
theorem sendMidiEvent_noteOn_velocity (p : MidiPlayer) (ev : MidiEvent)
    (hmeta : ev.isMetaEvent = false) (hch : ev.channel < 16)
    (hmute : p.channelMutes.testBit ev.channel = false)
    (hty : ev.type = 0x90) :
    (0 < ev.data2 →
      (sendMidiEvent p ev).2
        = [MidiMsg.noteOn
            (if p.userChannelRouting.getD ev.channel 0 ≠ 255 then
              p.userChannelRouting.getD ev.channel 0 + 1
             else ev.channel + 1)
            (clampNote ((ev.data1 : Int) + p.userChannelTranspose.getD ev.channel 0))
            (max 1 (min 127
              (if p.channelVelocities.getD ev.channel 0 ≠ 0 then
                ev.data2 * p.velocityScale * 2 / 100
                  * p.channelVelocities.getD ev.channel 0 / 100
               else ev.data2 * p.velocityScale * 2 / 100)))])
    ∧ (ev.data2 = 0 →
      (sendMidiEvent p ev).2
        = [MidiMsg.noteOff
            (if p.userChannelRouting.getD ev.channel 0 ≠ 255 then
              p.userChannelRouting.getD ev.channel 0 + 1
             else ev.channel + 1)
            (clampNote ((ev.data1 : Int) + p.userChannelTranspose.getD ev.channel 0))
            0]) := by
  constructor
  · intro hv
    unfold sendMidiEvent
    rw [if_neg (by simp [hmeta]), if_neg (by simp [hmeta]), if_neg (by omega)]
    rw [if_neg (by simp [hmute]), if_neg (by omega), if_pos hty, if_neg (by omega)]
    dsimp only
    congr 1
    congr 1
    split_ifs <;> omega
  · intro hv
    unfold sendMidiEvent
    rw [if_neg (by simp [hmeta]), if_neg (by simp [hmeta]), if_neg (by omega)]
    rw [if_neg (by simp [hmute]), if_neg (by omega), if_pos hty, if_pos hv]

/-- A NoteOn event on channel 0, note 60, velocity 100. -/
def evNoteOn100 : MidiEvent :=
  { deltaTime := 0, absoluteTime := 0, type := 0x90, channel := 0, data1 := 60,
    data2 := 100, sysexData := [], sysexLength := 0, isMetaEvent := false,
    trackNumber := 0 }

/-- Witness for `sendMidiEvent_noteOn_velocity` on `basePlayer` (velocity
scale 50, channel percentage 100): velocity 100 maps to 100. -/
theorem sendMidiEvent_noteOn_velocity_witness :
    evNoteOn100.isMetaEvent = false
    ∧ evNoteOn100.channel < 16
    ∧ basePlayer.channelMutes.testBit evNoteOn100.channel = false
    ∧ 0 < evNoteOn100.data2
    ∧ (sendMidiEvent basePlayer evNoteOn100).2
        = [MidiMsg.noteOn
            (if basePlayer.userChannelRouting.getD evNoteOn100.channel 0 ≠ 255 then
              basePlayer.userChannelRouting.getD evNoteOn100.channel 0 + 1
             else evNoteOn100.channel + 1)
            (clampNote ((evNoteOn100.data1 : Int)
              + basePlayer.userChannelTranspose.getD evNoteOn100.channel 0))
            (max 1 (min 127
              (if basePlayer.channelVelocities.getD evNoteOn100.channel 0 ≠ 0 then
                evNoteOn100.data2 * basePlayer.velocityScale * 2 / 100
                  * basePlayer.channelVelocities.getD evNoteOn100.channel 0 / 100
               else evNoteOn100.data2 * basePlayer.velocityScale * 2 / 100)))] :=
  ⟨by decide, by decide, by decide, by decide,
   (sendMidiEvent_noteOn_velocity basePlayer evNoteOn100 (by decide) (by decide)
     (by decide) (by decide)).1 (by decide)⟩

/-! ## C5: mute gate -/

theorem testBit_muteMask (c c' : Nat) (hc : c < 16) (hc' : c' < 16) (hne : c ≠ c') :
    Nat.testBit (U16 - 1 - 2 ^ c') c = true := by
  interval_cases c <;> interval_cases c' <;> revert hne <;> decide

theorem testBit_or_pow (m c : Nat) : Nat.testBit (m ||| 2 ^ c) c = true := by
  simp [Nat.testBit_or]

theorem testBit_or_pow_ne (m c c' : Nat) (hne : c ≠ c') :
    Nat.testBit (m ||| 2 ^ c') c = Nat.testBit m c := by
  simp [Nat.testBit_or, Nat.testBit_two_pow, Ne.symm hne]

/-- The mute bit of `c` survives any sequence of mute/unmute operations that
never unmutes `c`. -/
theorem applyMuteOps_keeps_bit (c : Nat) (hc : c < 16) :
    ∀ ops : List MuteOp, (∀ op ∈ ops, op ≠ MuteOp.unmute c) →
    ∀ p : MidiPlayer, Nat.testBit p.channelMutes c = true →
      Nat.testBit (applyMuteOps p ops).channelMutes c = true := by
  intro ops
  induction ops with
  | nil => intro _ p hbit; exact hbit
  | cons op rest ih =>
    intro hops p hbit
    match op with
    | MuteOp.mute c' =>
      rw [applyMuteOps]
      apply ih (fun op hop => hops op (List.mem_cons_of_mem _ hop))
      unfold muteChannel
      by_cases h16 : 16 ≤ c'
      · rw [if_pos h16]; exact hbit
      · rw [if_neg h16]
        by_cases hcc : c = c'
        · subst hcc; exact testBit_or_pow _ _
        · rw [testBit_or_pow_ne _ _ _ hcc]; exact hbit
    | MuteOp.unmute c' =>
      have hcc : c ≠ c' := by
        intro h
        subst h
        exact (hops _ (List.mem_cons_self _ _)) rfl
      rw [applyMuteOps]
      apply ih (fun op hop => hops op (List.mem_cons_of_mem _ hop))
      unfold unmuteChannel
      by_cases h16 : 16 ≤ c'
      · rw [if_pos h16]; exact hbit
      · rw [if_neg h16]
        dsimp only
        rw [Nat.testBit_and, hbit, testBit_muteMask c c' hc (by omega) hcc]
        rfl

/-- C5: (i) `muteChannel c` sets the mute bit of `c` and it stays set under
any sequence of `muteChannel` / `unmuteChannel` calls that never unmutes `c`;
(ii) while the bit is set, `sendMidiEvent` drops every NoteOn and NoteOff
whose original channel is `c`; (iii) for every non-note, non-meta event the
output is the same as with no mutes at all — non-note traffic (control
change, program change, pitch bend, aftertouch, SysEx) passes the gate. -/
theorem muteChannel_gate (c : Nat) (hc : c < 16) :
    (∀ (p : MidiPlayer) (ops : List MuteOp),
      (∀ op ∈ ops, op ≠ MuteOp.unmute c) →
      Nat.testBit (applyMuteOps (muteChannel p c).1 ops).channelMutes c = true)
    ∧ (∀ (p : MidiPlayer) (ev : MidiEvent),
      Nat.testBit p.channelMutes ev.channel = true → ev.channel = c →
      ev.isMetaEvent = false → (ev.type = 0x90 ∨ ev.type = 0x80) →
      (sendMidiEvent p ev).2 = [])
    ∧ (∀ (p : MidiPlayer) (ev : MidiEvent),
      ev.isMetaEvent = false → ev.type ≠ 0x90 → ev.type ≠ 0x80 →
      (sendMidiEvent p ev).2 = (sendMidiEvent { p with channelMutes := 0 } ev).2) := by
  refine ⟨?_, ?_, ?_⟩
  · intro p ops hops
    apply applyMuteOps_keeps_bit c hc ops hops
    unfold muteChannel
    rw [if_neg (by omega)]
    exact testBit_or_pow _ _
  · intro p ev hbit hchc hmeta hty
    unfold sendMidiEvent
    rw [if_neg (by simp [hmeta]), if_neg (by simp [hmeta]), if_neg (by omega)]
    rw [if_pos ⟨hbit, by omega⟩]
  · intro p ev hmeta hty1 hty2
    have hor : ¬ (ev.type = 0x90 ∨ ev.type = 0x80) := by omega
    unfold sendMidiEvent
    have h1 : ¬ (ev.isMetaEvent = true ∧ ev.data1 = 0x51) := by simp [hmeta]
    have h2 : ¬ ev.isMetaEvent = true := by simp [hmeta]
    rw [if_neg h1, if_neg h1, if_neg h2, if_neg h2]
    by_cases hch : 16 ≤ ev.channel
    · rw [if_pos hch, if_pos hch]
    · rw [if_neg hch, if_neg hch]
      dsimp only
      have hg1 : ¬ (Nat.testBit p.channelMutes ev.channel = true
          ∧ (ev.type = 0x90 ∨ ev.type = 0x80)) := fun h => hor h.2
      have hg2 : ¬ (Nat.testBit 0 ev.channel = true
          ∧ (ev.type = 0x90 ∨ ev.type = 0x80)) := fun h => hor h.2
      rw [if_neg hg1, if_neg hg2]
      rw [if_neg hty2, if_neg hty2, if_neg hty1, if_neg hty1]
      split_ifs <;> rfl

/-- A ControlChange (CC 1) event on channel 0. -/
def evCC1 : MidiEvent :=
  { deltaTime := 0, absoluteTime := 0, type := 0xB0, channel := 0, data1 := 1,
    data2 := 64, sysexData := [], sysexLength := 0, isMetaEvent := false,
    trackNumber := 0 }

/-- Witness for `muteChannel_gate` on channel 0 of `basePlayer`: the bit
survives a mute/unmute of channel 1, a NoteOn on the muted channel is
dropped, and a CC passes identically with and without mutes. -/
theorem muteChannel_gate_witness :
    Nat.testBit (applyMuteOps (muteChannel basePlayer 0).1
        [MuteOp.mute 1, MuteOp.unmute 1]).channelMutes 0 = true
    ∧ (sendMidiEvent (muteChannel basePlayer 0).1 evNoteOn100).2 = []
    ∧ (sendMidiEvent (muteChannel basePlayer 0).1 evCC1).2
        = (sendMidiEvent { (muteChannel basePlayer 0).1 with channelMutes := 0 } evCC1).2 :=
  ⟨(muteChannel_gate 0 (by decide)).1 basePlayer [MuteOp.mute 1, MuteOp.unmute 1] (by decide),
   (muteChannel_gate 0 (by decide)).2.1 (muteChannel basePlayer 0).1 evNoteOn100
     (by decide) (by decide) (by decide) (by decide),
   (muteChannel_gate 0 (by decide)).2.2 (muteChannel basePlayer 0).1 evCC1
     (by decide) (by decide) (by decide)⟩

/-! ## C10: fastForward position arithmetic -/

theorem pause_fields (p : MidiPlayer) :
    (pause p).1.ticksElapsed = p.ticksElapsed
    ∧ (pause p).1.microsecondsPerTick = p.microsecondsPerTick
    ∧ (pause p).1.parser.fileLengthTicks = p.parser.fileLengthTicks
    ∧ (pause p).1.eventReady = p.eventReady
    ∧ (pause p).1.nextEvent = p.nextEvent
    ∧ (pause p).1.parser = p.parser := by
  unfold pause
  split_ifs <;> exact ⟨rfl, rfl, rfl, rfl, rfl, rfl⟩

theorem play_ticksElapsed (p : MidiPlayer) : (play p).1.ticksElapsed = p.ticksElapsed := by
  unfold play
  by_cases h : p.state = PlayState.Playing
  · rw [if_pos h]
  · rw [if_neg h]
    dsimp only
    split_ifs <;> rfl

/-- C10: `fastForward(ms)` always returns with
`ticksElapsed = min (before + millisecondsToTicks ms) fileLengthTicks`
(when the uint32 sum does not wrap), no matter how many events the skip loop
consumed; with a zero cached file length the position is pinned to 0, and
with an unknown tick duration (`microsecondsPerTick = 0`) the position never
moves forward. -/
theorem fastForward_ticks (p : MidiPlayer) (ms : Nat)
    (hnw : p.ticksElapsed + millisecondsToTicks p ms < U32) :
    ((fastForward p ms).1.ticksElapsed
        = min (p.ticksElapsed + millisecondsToTicks p ms) p.parser.fileLengthTicks)
    ∧ (p.parser.fileLengthTicks = 0 → (fastForward p ms).1.ticksElapsed = 0)
    ∧ (p.microsecondsPerTick = 0 → (fastForward p ms).1.ticksElapsed ≤ p.ticksElapsed) := by
  have hmain : (fastForward p ms).1.ticksElapsed
      = min (p.ticksElapsed + millisecondsToTicks p ms) p.parser.fileLengthTicks := by
    unfold fastForward
    by_cases hplay : p.state = PlayState.Playing
    · simp only [hplay, if_pos, ite_true]
      obtain ⟨h1, h2, h3, h4, h5, h6⟩ := pause_fields p
      rw [play_ticksElapsed]
      dsimp only
      rw [h1, h3]
      have hmt : millisecondsToTicks (pause p).1 ms = millisecondsToTicks p ms := by
        unfold millisecondsToTicks
        rw [h2]
      rw [hmt, Nat.mod_eq_of_lt hnw]
      split_ifs <;> omega
    · simp only [hplay, if_neg, ite_false]
      rw [Nat.mod_eq_of_lt hnw]
      split_ifs <;> omega
  refine ⟨hmain, ?_, ?_⟩
  · intro h0
    rw [hmain, h0]
    omega
  · intro hmpt
    have : millisecondsToTicks p ms = 0 := by
      unfold millisecondsToTicks
      rw [hmpt]
      rfl
    rw [hmain, this]
    omega

/-- Witness for `fastForward_ticks`: on the stopped `basePlayer` (zero file
length, zero tick duration) a 1000 ms fast-forward leaves the position at
`min 0 0 = 0`. -/
theorem fastForward_ticks_witness :
    basePlayer.ticksElapsed + millisecondsToTicks basePlayer 1000 < U32
    ∧ (fastForward basePlayer 1000).1.ticksElapsed
        = min (basePlayer.ticksElapsed + millisecondsToTicks basePlayer 1000)
            basePlayer.parser.fileLengthTicks :=
  ⟨by decide, (fastForward_ticks basePlayer 1000 (by decide)).1⟩

/-! ## C8: stop(reset = true) -/

/-- C8 (amended): from Playing or Paused, `stop(true)` transitions to
Stopped, sends Clock Stop exactly when the clock is enabled followed by
All-Notes-Off (CC 123) on every channel 1..16, resets the parser to the
beginning (re-reading the first event), and leaves `ticksElapsed = 0`.  (When
already Stopped it returns immediately — see the counterexample.) -/
theorem stop_reset_spec (p : MidiPlayer) (h : p.state ≠ PlayState.Stopped) :
    (stop p true).1.state = PlayState.Stopped
    ∧ (stop p true).1.ticksElapsed = 0
    ∧ (stop p true).1.parser = (readNextEvent (parserReset p.midiFile p.parser)).1
    ∧ (stop p true).2 = (if p.clockEnabled then [MidiMsg.clockStop] else []) ++ stopAllNotes
    ∧ (∀ ch, 1 ≤ ch → ch ≤ 16 → MidiMsg.controlChange ch 123 0 ∈ (stop p true).2) := by
  have hstop : stop p true
      = ({ p with
            state := PlayState.Stopped
            parser := (readNextEvent (parserReset p.midiFile p.parser)).1
            ticksElapsed := 0
            eventReady := ((readNextEvent (parserReset p.midiFile p.parser)).2).isSome
            nextEvent := ((readNextEvent (parserReset p.midiFile p.parser)).2).getD p.nextEvent },
          (if p.clockEnabled then [MidiMsg.clockStop] else []) ++ stopAllNotes) := by
    unfold stop
    rw [if_neg h]
    try dsimp only
    rcases hq : readNextEvent (parserReset p.midiFile p.parser) with ⟨ps2, opt⟩
    simp
  have hmsgs : (stop p true).2
      = (if p.clockEnabled then [MidiMsg.clockStop] else []) ++ stopAllNotes := by
    rw [hstop]
  refine ⟨?_, ?_, ?_, hmsgs, ?_⟩
  · rw [hstop]
  · rw [hstop]
  · rw [hstop]
  · intro ch h1 h2
    rw [hmsgs]
    apply List.mem_append_right
    unfold stopAllNotes
    simp only [List.mem_map, List.mem_range]
    exact ⟨ch - 1, by omega, by congr 1; omega⟩

/-- A player in the Playing state with the clock enabled. -/
def playingPlayer : MidiPlayer :=
  { basePlayer with state := PlayState.Playing, clockEnabled := true,
                    ticksElapsed := 7 }

/-- Witness for `stop_reset_spec` on `playingPlayer`. -/
theorem stop_reset_spec_witness :
    playingPlayer.state ≠ PlayState.Stopped
    ∧ (stop playingPlayer true).1.ticksElapsed = 0
    ∧ (stop playingPlayer true).2
        = (if playingPlayer.clockEnabled then [MidiMsg.clockStop] else []) ++ stopAllNotes :=
  ⟨by decide, (stop_reset_spec playingPlayer (by decide)).2.1,
   (stop_reset_spec playingPlayer (by decide)).2.2.2.1⟩

/-- A stopped player whose position is not at the beginning (reachable e.g.
by a fast-forward while stopped). -/
def stoppedAt5 : MidiPlayer := { basePlayer with ticksElapsed := 5 }

/-- C8 counterexample: called in the Stopped state, `stop(true)` returns
immediately — no All-Notes-Off, no Clock Stop, no parser reset — and leaves
`ticksElapsed = 5 ≠ 0`. -/
theorem stop_reset_counterexample :
    stoppedAt5.state = PlayState.Stopped
    ∧ stoppedAt5.ticksElapsed = 5
    ∧ stop stoppedAt5 true = (stoppedAt5, []) := by
  decide

/-! ## C9: length-cache consistency -/

/-- A failed update scan means no stored name matches. -/
theorem updateCacheEntry_none (cache : List FileLengthCacheEntry) (n : List Nat)
    (m L S : Nat) (h : updateCacheEntry cache n m L S = none) :
    ∀ e ∈ cache, e.filename ≠ n := by
  induction cache with
  | nil => intro e he; simp at he
  | cons e0 rest ih =>
    rw [updateCacheEntry] at h
    intro e he
    by_cases hn : e0.filename = n
    · rw [if_pos hn] at h
      simp at h
    · rw [if_neg hn] at h
      rcases List.mem_cons.mp he with rfl | hmem
      · exact hn
      · cases hu : updateCacheEntry rest n m L S with
        | none => exact ih hu e hmem
        | some rest2 => rw [hu] at h; simp at h

/-- A successful update scan yields a cache whose first `n`-named entry holds
the new data. -/
theorem getCachedFileLength_updateCacheEntry (cache : List FileLengthCacheEntry)
    (n : List Nat) (m L S : Nat) (cache2 : List FileLengthCacheEntry)
    (h : updateCacheEntry cache n m L S = some cache2) :
    getCachedFileLength cache2 n m = (L, some S) := by
  induction cache generalizing cache2 with
  | nil => rw [updateCacheEntry] at h; simp at h
  | cons e0 rest ih =>
    rw [updateCacheEntry] at h
    by_cases hn : e0.filename = n
    · rw [if_pos hn] at h
      simp only [Option.some.injEq] at h
      rw [← h, getCachedFileLength]
      rw [if_pos hn, if_pos rfl]
    · rw [if_neg hn] at h
      cases hu : updateCacheEntry rest n m L S with
      | none => rw [hu] at h; simp at h
      | some rest2 =>
        rw [hu] at h
        simp only [Option.some.injEq] at h
        rw [← h, getCachedFileLength, if_neg hn]
        exact ih rest2 hu

/-- Lookup skips a prefix with no matching name. -/
theorem getCachedFileLength_append (pre : List FileLengthCacheEntry)
    (post : List FileLengthCacheEntry) (n : List Nat) (m : Nat)
    (h : ∀ e ∈ pre, e.filename ≠ n) :
    getCachedFileLength (pre ++ post) n m = getCachedFileLength post n m := by
  induction pre with
  | nil => rfl
  | cons e0 rest ih =>
    rw [List.cons_append, getCachedFileLength,
      if_neg (h e0 (List.mem_cons_self _ _))]
    exact ih (fun e he => h e (List.mem_cons_of_mem _ he))

/-- C9 (amended): (i) for a basename of at most 63 bytes, a lookup right
after `cacheFileLength(n, m, L, S)` returns the stored pair — the returned
length is `L` and the SysEx count `S` is written through the out-pointer;
(ii) in a cache whose stored names are distinct (which `cacheFileLength`
maintains, (iii)), a stored entry keyed `(n, m)` makes any lookup with
`m' ≠ m` return the absent result `(0, none)`. -/
theorem cacheFileLength_consistency (n : List Nat) (m L S : Nat) :
    (∀ cache : List FileLengthCacheEntry, n.length ≤ 63 →
      getCachedFileLength (cacheFileLength cache n m L S) n m = (L, some S))
    ∧ (∀ (cache : List FileLengthCacheEntry) (e : FileLengthCacheEntry) (m' : Nat),
      cache.Pairwise (fun a b => a.filename ≠ b.filename) →
      e ∈ cache → e.filename = n → e.modtime = m → m' ≠ m →
      getCachedFileLength cache n m' = (0, none))
    ∧ (∀ cache : List FileLengthCacheEntry, n.length ≤ 63 →
      cache.Pairwise (fun a b => a.filename ≠ b.filename) →
      (cacheFileLength cache n m L S).Pairwise (fun a b => a.filename ≠ b.filename)) := by
  refine ⟨?_, ?_, ?_⟩
  · intro cache hn
    unfold cacheFileLength
    cases hu : updateCacheEntry cache n m L S with
    | some cache2 => exact getCachedFileLength_updateCacheEntry cache n m L S cache2 hu
    | none =>
      have hall := updateCacheEntry_none cache n m L S hu
      have htake : n.take 63 = n := List.take_of_length_le hn
      by_cases hlen : cache.length < 500
      · rw [if_pos hlen, getCachedFileLength_append cache _ n m hall,
          getCachedFileLength, htake, if_pos rfl, if_pos rfl]
      · rw [if_neg hlen, getCachedFileLength_append (cache.drop 1) _ n m
          (fun e he => hall e (List.mem_of_mem_drop he)),
          getCachedFileLength, htake, if_pos rfl, if_pos rfl]
  · intro cache e m' hpair hmem hname hmod hne
    induction cache with
    | nil => simp at hmem
    | cons e0 rest ih =>
      rw [getCachedFileLength]
      rcases List.mem_cons.mp hmem with rfl | hmemr
      · rw [if_pos hname, hmod, if_neg (Ne.symm hne)]
      · have hne0 : e0.filename ≠ n := by
          rw [← hname]
          exact (List.pairwise_cons.mp hpair).1 e hmemr
        rw [if_neg hne0]
        exact ih (List.pairwise_cons.mp hpair).2 hmemr
  · intro cache hn hpair
    unfold cacheFileLength
    cases hu : updateCacheEntry cache n m L S with
    | some cache2 =>
      have hnames : ∀ (c : List FileLengthCacheEntry) (c2 : List FileLengthCacheEntry),
          updateCacheEntry c n m L S = some c2 →
          c2.map FileLengthCacheEntry.filename = c.map FileLengthCacheEntry.filename := by
        intro c
        induction c with
        | nil => intro c2 h; rw [updateCacheEntry] at h; simp at h
        | cons e0 rest ih2 =>
          intro c2 h
          rw [updateCacheEntry] at h
          by_cases hn0 : e0.filename = n
          · rw [if_pos hn0] at h
            simp only [Option.some.injEq] at h
            rw [← h]
            simp [hn0]
          · rw [if_neg hn0] at h
            cases hu2 : updateCacheEntry rest n m L S with
            | none => rw [hu2] at h; simp at h
            | some rest2 =>
              rw [hu2] at h
              simp only [Option.some.injEq] at h
              rw [← h]
              simp only [List.map_cons]
              rw [ih2 rest2 hu2]
      have hmap := hnames cache cache2 hu
      have : cache2.Pairwise (fun a b => a.filename ≠ b.filename) := by
        have h1 : (cache2.map FileLengthCacheEntry.filename).Pairwise (fun a b => a ≠ b) := by
          rw [hmap]
          exact List.Pairwise.map _ (fun a b hab => hab) hpair
        have h2 := List.Pairwise.of_map FileLengthCacheEntry.filename
          (fun a b hab => hab) h1
        exact h2
      exact this
    | none =>
      have hall := updateCacheEntry_none cache n m L S hu
      have htake : n.take 63 = n := List.take_of_length_le hn
      by_cases hlen : cache.length < 500
      · rw [if_pos hlen]
        apply List.pairwise_append.mpr
        refine ⟨hpair, List.pairwise_singleton _ _, ?_⟩
        intro a ha b hb
        simp only [List.mem_singleton] at hb
        rw [hb]
        dsimp only
        rw [htake]
        exact hall a ha
      · rw [if_neg hlen]
        apply List.pairwise_append.mpr
        refine ⟨List.Pairwise.drop hpair, List.pairwise_singleton _ _, ?_⟩
        intro a ha b hb
        simp only [List.mem_singleton] at hb
        rw [hb]
        dsimp only
        rw [htake]
        exact hall a (List.mem_of_mem_drop ha)

/-- A short basename and a one-entry cache fixture. -/
def nameAB : List Nat := [97, 98]

def cacheAB : List FileLengthCacheEntry :=
  [{ filename := nameAB, modtime := 5, lengthTicks := 7, sysexCount := 3 }]

/-- Witness for `cacheFileLength_consistency`: insert-then-lookup on the
empty cache returns the stored pair, and a lookup with a changed mtime on
`cacheAB` is absent. -/
theorem cacheFileLength_consistency_witness :
    nameAB.length ≤ 63
    ∧ getCachedFileLength (cacheFileLength [] nameAB 5 7 3) nameAB 5 = (7, some 3)
    ∧ getCachedFileLength cacheAB nameAB 6 = (0, none) :=
  ⟨by decide,
   (cacheFileLength_consistency nameAB 5 7 3).1 [] (by decide),
   (cacheFileLength_consistency nameAB 5 7 3).2.1 cacheAB
     { filename := nameAB, modtime := 5, lengthTicks := 7, sysexCount := 3 } 6
     (by simp [cacheAB]) (by decide) (by decide) (by decide) (by decide)⟩

/-- A 64-byte basename: one byte longer than the 63 bytes `strncpy` keeps. -/
def name64 : List Nat := List.replicate 64 97

/-- C9 counterexample: for a 64-byte name the stored entry keeps only the
first 63 bytes, so the lookup right after the insert does not return the
stored pair — it misses and returns the absent result. -/
theorem cacheFileLength_consistency_counterexample :
    getCachedFileLength (cacheFileLength [] name64 5 7 3) name64 5 = (0, none)
    ∧ ((0, none) : Nat × Option Nat) ≠ (7, some 3) := by
  decide

/-! ## C7: variable-length quantities are not bounded -/

theorem drop_cons_head (data : List Nat) (pos : Nat) (x : Nat) (xs : List Nat)
    (hdrop : data.drop pos = x :: xs) :
    pos < data.length ∧ data.getD pos 0 = x
      ∧ data.drop (pos + 1) = xs := by
  have hlt : pos < data.length := by
    by_contra hge
    rw [List.drop_eq_nil_of_le (by omega)] at hdrop
    simp at hdrop
  refine ⟨hlt, ?_, ?_⟩
  · have h1 : data[pos]? = (data.drop pos).head? := (List.head?_drop data pos).symm
    rw [hdrop] at h1
    simp only [List.head?_cons] at h1
    rw [List.getD_eq_getElem?_getD, h1]
    rfl
  · have : data.drop (pos + 1) = (data.drop pos).drop 1 := by
      rw [List.drop_drop]
    rw [this, hdrop]
    rfl

/-- The VLQ loop consumes exactly one byte per continuation bit plus the
terminating byte, for continuation runs of any length. -/
theorem readVLQp_chain (cs : List Nat) :
    ∀ (data : List Nat) (pos acc : Nat) (b : Nat) (rest : List Nat),
    data.drop pos = cs ++ b :: rest →
    (∀ x ∈ cs, 128 ≤ x % 256) → b % 256 < 128 →
    readVLQp data pos acc
      = ((cs ++ [b]).foldl (fun a c => (a * 128 + c % 256 % 128) % U32) acc,
         pos + cs.length + 1) := by
  induction cs with
  | nil =>
    intro data pos acc b rest hdrop _ hb
    obtain ⟨hlt, hget, -⟩ := drop_cons_head data pos b rest (by simpa using hdrop)
    rw [readVLQp_rec, if_pos hlt, hget, if_pos hb]
    simp
  | cons c cs ih =>
    intro data pos acc b rest hdrop hcs hb
    obtain ⟨hlt, hget, hdrop'⟩ := drop_cons_head data pos c (cs ++ b :: rest)
      (by simpa using hdrop)
    have hc : 128 ≤ c % 256 := hcs c (List.mem_cons_self _ _)
    rw [readVLQp_rec, if_pos hlt, hget, if_neg (by omega)]
    rw [ih data (pos + 1) _ b rest hdrop'
      (fun x hx => hcs x (List.mem_cons_of_mem _ hx)) hb]
    simp only [List.cons_append, List.foldl_cons, List.length_cons, Prod.mk.injEq, true_and]
    omega

/-- C7 (amended): the parser's VLQ reader imposes no 4-byte bound and never
terminates the track: for any run of `k` continuation bytes followed by a
terminator, `readTrackVariableLength` consumes exactly `k + 1` bytes
(accumulating the value mod `2^32`) and changes nothing but `filePosition` —
in particular `endOfTrack` keeps its value, so the track continues. -/
theorem readTrackVariableLength_unbounded (t : TrackState) (cs : List Nat)
    (b : Nat) (rest : List Nat)
    (hdrop : t.data.drop t.filePosition = cs ++ b :: rest)
    (hcs : ∀ x ∈ cs, 128 ≤ x % 256) (hb : b % 256 < 128) :
    readTrackVariableLength t 0
      = ((cs ++ [b]).foldl (fun a c => (a * 128 + c % 256 % 128) % U32) 0,
         { t with filePosition := t.filePosition + cs.length + 1 })
    ∧ (readTrackVariableLength t 0).2.endOfTrack = t.endOfTrack := by
  have h := readVLQp_chain cs t.data t.filePosition 0 b rest hdrop hcs hb
  constructor
  · rw [readTrackVariableLength_eq, h]
  · rw [readTrackVariableLength_eq]

/-- A track whose first delta time is a six-byte VLQ (five continuation
bytes), followed by a NoteOn. -/
def trackLongVLQ : TrackState :=
  { data := [0x81, 0x80, 0x80, 0x80, 0x80, 0x01, 0x90, 0x40, 0x40],
    trackEndPos := 9, filePosition := 0, currentTick := 0, runningStatus := 0,
    endOfTrack := false, nextEvent := MidiEvent.default, eventReady := false }

def fiDefault : MidiFileInfo :=
  { format := 0, numTracks := 1, ticksPerQuarter := 96, tempo := 500000,
    numerator := 4, denominator := 4, trackName := [] }

/-- Witness for `readTrackVariableLength_unbounded` on `trackLongVLQ`: the
six-byte VLQ is consumed whole. -/
theorem readTrackVariableLength_unbounded_witness :
    trackLongVLQ.data.drop trackLongVLQ.filePosition
        = [0x81, 0x80, 0x80, 0x80, 0x80] ++ 0x01 :: [0x90, 0x40, 0x40]
    ∧ readTrackVariableLength trackLongVLQ 0
        = (1, { trackLongVLQ with filePosition := 6 }) :=
  ⟨by decide,
   by
    have h := (readTrackVariableLength_unbounded trackLongVLQ
      [0x81, 0x80, 0x80, 0x80, 0x80] 0x01 [0x90, 0x40, 0x40]
      (by decide) (by decide) (by decide)).1
    rw [h]
    decide⟩

/-- C7 counterexample: this six-byte VLQ is read whole (more than 4 bytes)
and the track is not terminated — `readTrackEvent` still returns a NoteOn
event and `endOfTrack` stays false. -/
theorem readTrackVariableLength_unbounded_counterexample :
    (readTrackVariableLength trackLongVLQ 0).2.filePosition = 6
    ∧ 4 < 6
    ∧ (readTrackEvent fiDefault trackLongVLQ 0 MidiEvent.default).ok = true
    ∧ (readTrackEvent fiDefault trackLongVLQ 0 MidiEvent.default).track.endOfTrack = false
    ∧ (readTrackEvent fiDefault trackLongVLQ 0 MidiEvent.default).event.type = 0x90 := by
  decide

/-! ## C4: what `open` does and does not validate -/

/-- A syntactically valid file declaring format 2 and division 0. -/
def fileFmt2Div0 : List Nat :=
  [0x4D, 0x54, 0x68, 0x64, 0, 0, 0, 6, 0, 2, 0, 1, 0, 0,
   0x4D, 0x54, 0x72, 0x6B, 0, 0, 0, 4,
   0x00, 0xFF, 0x2F, 0x00]

def psFmt2Div0 : ParserState := (openFile fileFmt2Div0).getD psS1

/-- C4 (amended): `open` refuses a file whose first four bytes are not
`"MThd"` and a file whose declared header length is not 6; it performs no
validation of the format or division fields — a file declaring format 2 and
division 0 opens successfully and the bogus values are stored as-is. -/
theorem openFile_header_validation :
    (∀ file : List Nat,
      readChunkName { data := file, pos := 0 } mthd = none → openFile file = none)
    ∧ (∀ (file : List Nat) (f : FileReader),
      readChunkName { data := file, pos := 0 } mthd = some f →
      (read32 f).1 ≠ 6 → openFile file = none)
    ∧ openFile fileFmt2Div0 = some psFmt2Div0
    ∧ psFmt2Div0.fileInfo.format = 2
    ∧ psFmt2Div0.fileInfo.ticksPerQuarter = 0 := by
  refine ⟨?_, ?_, by decide, by decide, by decide⟩
  · intro file h
    unfold openFile headerAndTracks readMidiHeader
    rw [h]
  · intro file f h hlen
    unfold openFile headerAndTracks readMidiHeader
    rw [h]
    dsimp only
    rw [if_neg hlen]

/-- Witness for `openFile_header_validation`: a file that does not start
with `"MThd"` is refused. -/
theorem openFile_header_validation_witness :
    readChunkName { data := [0, 1, 2, 3], pos := 0 } mthd = none
    ∧ openFile [0, 1, 2, 3] = none :=
  ⟨by decide,
   openFile_header_validation.1 [0, 1, 2, 3] (by decide)⟩

/-- C4 counterexample: the claim says files with format 2 or division 0 are
never opened, yet `openFile` accepts `fileFmt2Div0`, which declares both. -/
theorem openFile_header_validation_counterexample :
    openFile fileFmt2Div0 = some psFmt2Div0
    ∧ psFmt2Div0.fileInfo.format = 2
    ∧ psFmt2Div0.fileInfo.ticksPerQuarter = 0
    ∧ (openFile fileFmt2Div0).isSome = true := by
  decide

/-! ## C6: tempo meta handling -/

/-- Declared length and payload start position of a meta event whose status
byte follows the delta time at the track's current position. -/
def tempoMetaLenPos (t : TrackState) : Nat × Nat :=
  readVLQp t.data (posInc t.data (posInc t.data (readVLQp t.data t.filePosition 0).2)) 0

/-- The 3-byte big-endian value at the payload start. -/
def tempoVal (t : TrackState) : Nat :=
  byteGet t.data (tempoMetaLenPos t).2 * 65536
    + byteGet t.data (posInc t.data (tempoMetaLenPos t).2) * 256
    + byteGet t.data (posInc t.data (posInc t.data (tempoMetaLenPos t).2))

section
attribute [local irreducible] readVLQFuel readVLQp byteGet posInc skipPos bytesListp decPos

/-- C6: when `readTrackEvent` meets a `0x51` meta event (a `0xFF` status byte
after the delta time, meta type `0x51`), the stored tempo is updated if and
only if the declared VLQ length is exactly 3 and the 3-byte big-endian value
lies in [100000, 10000000]; in every other case `fileInfo` keeps the previous
tempo, and the payload bytes are consumed either way (three reads when the
length is 3, a skip of the declared length otherwise).  The call returns
`true` and the track does not end. -/
theorem readTrackEvent_tempoMeta (fi : MidiFileInfo) (t : TrackState) (n : Nat)
    (prev : MidiEvent)
    (hEnd : t.endOfTrack = false) (hPos : t.filePosition < t.trackEndPos)
    (hSB : byteGet t.data (readVLQp t.data t.filePosition 0).2 = 0xFF)
    (hMT : byteGet t.data (posInc t.data (readVLQp t.data t.filePosition 0).2) = 0x51) :
    (readTrackEvent fi t n prev).ok = true
    ∧ (readTrackEvent fi t n prev).fileInfo.tempo
        = (if (tempoMetaLenPos t).1 = 3 ∧ 100000 ≤ tempoVal t ∧ tempoVal t ≤ 10000000
           then tempoVal t else fi.tempo)
    ∧ (readTrackEvent fi t n prev).fileInfo
        = { fi with tempo := (readTrackEvent fi t n prev).fileInfo.tempo }
    ∧ (readTrackEvent fi t n prev).track.filePosition
        = (if (tempoMetaLenPos t).1 = 3
           then posInc t.data (posInc t.data (posInc t.data (tempoMetaLenPos t).2))
           else skipPos t.data (tempoMetaLenPos t).2 (tempoMetaLenPos t).1)
    ∧ (readTrackEvent fi t n prev).track.endOfTrack = false := by
  unfold readTrackEvent metaDispatch tempoMetaLenPos tempoVal
  rw [if_neg (by rw [hEnd]; simp), if_neg (by omega)]
  rw [readTrackVariableLength_eq]
  try dsimp only
  rw [readTrackByte_eq]
  try dsimp only
  rw [hSB]
  rw [if_neg (show ¬ (255 < 128) by norm_num)]
  try dsimp only
  rw [if_neg (show ¬ ((255 : Nat) = 240 ∨ (255 : Nat) = 247) by decide)]
  rw [if_pos (show (255 : Nat) = 255 from rfl)]
  rw [readTrackByte_eq]
  try dsimp only
  rw [hMT]
  rw [readTrackVariableLength_eq]
  try dsimp only
  rw [if_pos (show (81 : Nat) = 81 from rfl)]
  by_cases hlen :
    (readVLQp t.data (posInc t.data (posInc t.data (readVLQp t.data t.filePosition 0).2)) 0).1 = 3
  · rw [if_pos hlen]
    simp only [readTrackByte_eq]
    try dsimp only
    by_cases hrange :
      100000 ≤ byteGet t.data
          (readVLQp t.data (posInc t.data (posInc t.data (readVLQp t.data t.filePosition 0).2)) 0).2 * 65536
        + byteGet t.data (posInc t.data
            (readVLQp t.data (posInc t.data (posInc t.data (readVLQp t.data t.filePosition 0).2)) 0).2) * 256
        + byteGet t.data (posInc t.data (posInc t.data
            (readVLQp t.data (posInc t.data (posInc t.data (readVLQp t.data t.filePosition 0).2)) 0).2))
      ∧ byteGet t.data
          (readVLQp t.data (posInc t.data (posInc t.data (readVLQp t.data t.filePosition 0).2)) 0).2 * 65536
        + byteGet t.data (posInc t.data
            (readVLQp t.data (posInc t.data (posInc t.data (readVLQp t.data t.filePosition 0).2)) 0).2) * 256
        + byteGet t.data (posInc t.data (posInc t.data
            (readVLQp t.data (posInc t.data (posInc t.data (readVLQp t.data t.filePosition 0).2)) 0).2))
        ≤ 10000000
    · rw [if_pos hrange, if_pos ⟨hlen, hrange⟩, if_pos hlen]
      refine ⟨?_, ?_, ?_, ?_, ?_⟩ <;> first | exact hEnd | rfl | trivial
    · rw [if_neg hrange, if_neg (fun h => hrange h.2), if_pos hlen]
      refine ⟨?_, ?_, ?_, ?_, ?_⟩ <;> first | exact hEnd | rfl | trivial
  · rw [if_neg hlen, if_neg (fun h => hlen h.1), if_neg hlen]
    rw [skipTrackBytes_eq]
    try dsimp only
    refine ⟨?_, ?_, ?_, ?_, ?_⟩ <;> first | exact hEnd | rfl | trivial

end

/-- A track starting with a tempo meta event: Δ0, FF 51 03, payload
`0F 42 40` (1,000,000 µs/quarter), followed by a NoteOn. -/
def trackTempoMeta : TrackState :=
  { data := [0x00, 0xFF, 0x51, 0x03, 0x0F, 0x42, 0x40, 0x00, 0x90, 0x3C, 0x64],
    trackEndPos := 11, filePosition := 0, currentTick := 0, runningStatus := 0,
    endOfTrack := false, nextEvent := MidiEvent.default, eventReady := false }

/-- Witness for `readTrackEvent_tempoMeta`: the declared length is 3 and
`0F4240` is in range, so the stored tempo becomes 1,000,000. -/
theorem readTrackEvent_tempoMeta_witness :
    trackTempoMeta.endOfTrack = false
    ∧ trackTempoMeta.filePosition < trackTempoMeta.trackEndPos
    ∧ (readTrackEvent fiDefault trackTempoMeta 0 MidiEvent.default).fileInfo.tempo
        = (if (tempoMetaLenPos trackTempoMeta).1 = 3
             ∧ 100000 ≤ tempoVal trackTempoMeta ∧ tempoVal trackTempoMeta ≤ 10000000
           then tempoVal trackTempoMeta else fiDefault.tempo)
    ∧ tempoVal trackTempoMeta = 1000000 :=
  ⟨by decide, by decide,
   (readTrackEvent_tempoMeta fiDefault trackTempoMeta 0 MidiEvent.default
     (by decide) (by decide) (by decide) (by decide)).2.1,
   by decide⟩
